import Mathlib

/-!
Verification of the labman node daemon core (endpoint registry, OpenAI proxy
handler, Portman WebSocket fan-out) against its natural-language specification.

The Rust sources are shallowly embedded: pure functions become Lean functions,
the registry's `HashMap` contents become association lists carried in the
hash map's (unspecified) iteration order, HTTP and channel effects become
explicit outcome parameters, and machine integers become `Nat` with explicit
`% 2^w` where the source wraps.
-/

/-- Shallow model of `serde_json::Value`.  Numbers are kept as their literal
text, since no claim depends on numeric semantics. -/
inductive JsonValue where
  | null : JsonValue
  | bool (b : Bool) : JsonValue
  | num (lit : String) : JsonValue
  | str (s : String) : JsonValue
  | arr (items : List JsonValue) : JsonValue
  | obj (fields : List (String × JsonValue)) : JsonValue

/-- First-occurrence lookup in a JSON object's field list. -/
def jLookup (fields : List (String × JsonValue)) (k : String) : Option JsonValue :=
  match fields with
  | [] => none
  | (k', v) :: rest => if k' = k then some v else jLookup rest k

/-- First-occurrence lookup in an association list (models `HashMap::get`). -/
def assocGet {α : Type} (l : List (String × α)) (k : String) : Option α :=
  match l with
  | [] => none
  | (k', v) :: rest => if k' = k then some v else assocGet rest k

/-- Key-membership in an association list (models `HashMap::contains_key`). -/
def assocHasKey {α : Type} (l : List (String × α)) (k : String) : Bool :=
  match l with
  | [] => false
  | (k', _) :: rest => k' = k || assocHasKey rest k

/-! ### Glob matcher (`labman-endpoints/src/lib.rs`, `glob_match`)

Strings are modelled as `List Char`; Rust's byte slicing in `glob_match` only
ever happens at boundaries of verified substring occurrences, so the char-list
view is exact. -/

/-- Model of `str::split('*')`: the list of segments between `*` occurrences.
`splitOnStar []` is `[[]]`, matching Rust's `"".split('*')` yielding `[""]`. -/
def splitOnStar : List Char → List (List Char)
  | [] => [[]]
  | c :: rest =>
    if c = '*' then [] :: splitOnStar rest
    else
      match splitOnStar rest with
      | [] => [[c]]
      | s :: ss => (c :: s) :: ss

/-- Model of `str::starts_with` on char lists. -/
def startsWithL (pre l : List Char) : Bool :=
  decide (l.take pre.length = pre)

/-- Model of `str::ends_with` on char lists. -/
def endsWithL (suf l : List Char) : Bool :=
  decide (suf.length ≤ l.length) && decide (l.drop (l.length - suf.length) = suf)

/-- Model of `remainder.find(part)` followed by slicing off everything up to
and including the first occurrence: returns the suffix after the leftmost
occurrence of `needle`, or `none` when `needle` does not occur. -/
def dropAfterFirst (needle : List Char) : List Char → Option (List Char)
  | [] => if startsWithL needle [] then some [] else none
  | c :: t =>
    if startsWithL needle (c :: t) then some ((c :: t).drop needle.length)
    else dropAfterFirst needle t

/-- The loop over `parts[1..]` in `glob_match`: middle segments are matched
greedily at their leftmost occurrence; the final segment must be a suffix of
what remains (vacuously when empty). -/
def matchTail : List (List Char) → List Char → Bool
  | [], _ => false
  | [p], rem => decide (p = []) || endsWithL p rem
  | p :: q :: ps, rem =>
    match dropAfterFirst p rem with
    | none => false
    | some r => matchTail (q :: ps) r

/-- Faithful embedding of `glob_match(pattern, text)`. -/
def globMatch (pattern text : List Char) : Bool :=
  if pattern = ['*'] then true
  else
    match splitOnStar pattern with
    | [] => true
    | [_] => decide (pattern = text)
    | p0 :: p1 :: ps =>
      startsWithL p0 text && matchTail (p1 :: ps) (text.drop p0.length)

/-! ### Reference regex semantics for the glob claim

The spec's reference translation maps a glob pattern to the anchored regex
`^<p with * replaced by .*>$`.  `RAtom`/`RMatch` give exactly that semantics:
a literal atom consumes its character, a star atom consumes any (possibly
empty) prefix. -/

inductive RAtom where
  | lit (c : Char) : RAtom
  | star : RAtom
deriving DecidableEq

/-- Translation of a glob pattern into the reference regex atom list. -/
def regexOfGlob (p : List Char) : List RAtom :=
  p.map (fun c => if c = '*' then RAtom.star else RAtom.lit c)

/-- Anchored matching of a regex atom list against a text. -/
inductive RMatch : List RAtom → List Char → Prop where
  | nil : RMatch [] []
  | lit {c : Char} {rs : List RAtom} {t : List Char} :
      RMatch rs t → RMatch (RAtom.lit c :: rs) (c :: t)
  | starEmpty {rs : List RAtom} {t : List Char} :
      RMatch rs t → RMatch (RAtom.star :: rs) t
  | starCons {rs : List RAtom} {c : Char} {t : List Char} :
      RMatch (RAtom.star :: rs) t → RMatch (RAtom.star :: rs) (c :: t)

/-- Parts-decomposition semantics used to bridge `globMatch` and `RMatch`:
`StarTail ps r` states that `r` can be written `w1 ++ p1 ++ … ++ wk ++ pk`
(each `wi` arbitrary), i.e. `r` matches `.* p1 .* p2 … .* pk` anchored at
both ends. -/
def StarTail : List (List Char) → List Char → Prop
  | [], r => r = []
  | p :: ps, r => ∃ w r2, r = w ++ p ++ r2 ∧ StarTail ps r2

/-- Statement that `t` matches `p0 .* p1 … .* pk` for parts `p0 :: ps`,
anchored at both ends, i.e. the reference regex of a glob whose
star-separated segments are `p0 :: ps`. -/
def PartsMatch : List (List Char) → List Char → Prop
  | [], _ => False
  | p :: ps, t => ∃ r, t = p ++ r ∧ StarTail ps r

/-- Regex atom list of a parts decomposition: the first segment literally,
then a star before each later segment. -/
def regexAtoms : List (List Char) → List RAtom
  | [] => []
  | q :: qs => q.map RAtom.lit ++ (qs.map (fun r => RAtom.star :: r.map RAtom.lit)).flatten

/-! ### Endpoint registry (`labman-endpoints/src/lib.rs`)

The registry's `HashMap<String, EndpointEntry>` is embedded as an association
list carried in the hash map's iteration order.  Rust's `HashMap` iteration
order is unspecified (seeded SipHash), so nothing ties this order to the
order endpoints were declared in the configuration; `from_config` below
produces the insertion sequence, and any permutation of it is a legal
iteration order of the resulting map. -/

/-- Model of `labman_core::ModelDescriptor` (timestamps carried verbatim,
metadata as raw JSON). -/
structure ModelDescriptor where
  id : String
  created : Option Int
  owned_by : Option String
  metadata : JsonValue

/-- Model of `labman_core::EndpointHealth`. -/
inductive EndpointHealth where
  | healthy : EndpointHealth
  | unhealthy (reason : String) : EndpointHealth
  | unknown : EndpointHealth

/-- Model of `labman_core::Endpoint` (the fields the registry stores or
could mutate; the two `chrono` timestamps are omitted as no registry code
path reads or writes them). -/
structure Endpoint where
  name : String
  base_url : String
  health : EndpointHealth
  models : List ModelDescriptor
  consecutive_failures : Nat

/-- Model of `Endpoint::new`. -/
def Endpoint.new (name base_url : String) : Endpoint :=
  ⟨name, base_url, EndpointHealth.unknown, [], 0⟩

/-- Model of `labman_endpoints::EndpointMeta`. -/
structure EndpointMeta where
  max_concurrent : Option Nat
  models_include : Option (List String)
  models_exclude : Option (List String)

/-- Model of `labman_endpoints::EndpointEntry`. -/
structure EndpointEntry where
  endpoint : Endpoint
  meta : EndpointMeta
  active_requests : Nat
  healthy : Bool
  discovered_models : List ModelDescriptor

/-- Model of `labman_config::EndpointConfig`. -/
structure EndpointConfig where
  name : String
  base_url : String
  max_concurrent : Option Nat
  models_include : Option (List String)
  models_exclude : Option (List String)

/-- Model of `labman_endpoints::EndpointRegistry`.  `endpoints` holds the
`HashMap` contents in iteration order; `metricsEnabled` models
`metrics.is_some()`. -/
structure EndpointRegistry where
  endpoints : List (String × EndpointEntry)
  model_index : List (String × List String)
  metricsEnabled : Bool

/-- Model of `EndpointRegistry::build_core_endpoint`. -/
def build_core_endpoint (cfg : EndpointConfig) : Except String Endpoint :=
  let base_url := cfg.base_url.trim
  if base_url = "" then
    Except.error ("invalid endpoint base_url: base_url must not be empty")
  else if !(base_url.startsWith "http://" || base_url.startsWith "https://") then
    Except.error ("invalid endpoint base_url: base_url must start with http:// or https://")
  else
    Except.ok (Endpoint.new cfg.name base_url)

/-- Model of the entry built for one configured endpoint in
`EndpointRegistry::from_config`. -/
def entryOfConfig (cfg : EndpointConfig) (ep : Endpoint) : EndpointEntry :=
  ⟨ep, ⟨cfg.max_concurrent, cfg.models_include, cfg.models_exclude⟩, 0, false, []⟩

/-- Loop of `EndpointRegistry::from_config`: duplicate names are rejected and
entries are inserted in configuration order.  The resulting association list
is the map's insertion sequence; the live map may iterate it in any order. -/
def from_config_aux : List (String × EndpointEntry) → List EndpointConfig →
    Except String (List (String × EndpointEntry))
  | acc, [] => Except.ok acc
  | acc, c :: rest =>
    if assocHasKey acc c.name then
      Except.error ("duplicate endpoint name: " ++ c.name)
    else
      match build_core_endpoint c with
      | Except.error e => Except.error e
      | Except.ok ep => from_config_aux (acc ++ [(c.name, entryOfConfig c ep)]) rest

/-- Model of `EndpointRegistry::from_config`, as the insertion sequence of
the endpoints map. -/
def from_config (cfgs : List EndpointConfig) : Except String (List (String × EndpointEntry)) :=
  from_config_aux [] cfgs

/-- Rust `StatusCode::is_success`: 2xx. -/
def isSuccessStatus (s : Nat) : Bool :=
  decide (200 ≤ s) && decide (s < 300)

/-- One observation handed to the shared `MetricsRecorder`. -/
inductive MetricEvent where
  | requestEnd (endpoint : Option String) (model : Option String) (success : Bool) : MetricEvent
  | errorKind (endpoint : Option String) (kind : String) : MetricEvent
deriving DecidableEq

/-- Outcome of the health-probe GET against one endpoint's `base_url`:
either an HTTP response with some status, or a network error. -/
inductive ProbeResult where
  | ok (status : Nat) : ProbeResult
  | err : ProbeResult

/-- Per-endpoint body of the loop in
`EndpointRegistry::health_check_all_http`: a 2xx response marks the endpoint
healthy and records a successful request end; any other response marks it
unhealthy with a `health_http_status` error; a network error marks it
unhealthy with a `health_http_error` error.  No other field of the entry is
touched. -/
def healthProbeEntry (metricsOn : Bool) (name : String) (e : EndpointEntry)
    (res : ProbeResult) : EndpointEntry × List MetricEvent :=
  match res with
  | ProbeResult.ok s =>
    if isSuccessStatus s then
      ({ e with healthy := true },
       if metricsOn then [MetricEvent.requestEnd (some name) none true] else [])
    else
      ({ e with healthy := false },
       if metricsOn then [MetricEvent.errorKind (some name) "health_http_status"] else [])
  | ProbeResult.err =>
    ({ e with healthy := false },
     if metricsOn then [MetricEvent.errorKind (some name) "health_http_error"] else [])

/-- Model of `EndpointRegistry::health_check_all_http`, with the per-endpoint
HTTP outcomes supplied by `probe`.  The loop visits every endpoint
unconditionally and the function always returns `Ok(())`. -/
def health_check_all_http (reg : EndpointRegistry) (probe : String → ProbeResult) :
    EndpointRegistry × List MetricEvent :=
  ({ reg with
      endpoints := reg.endpoints.map
        (fun p => (p.1, (healthProbeEntry reg.metricsEnabled p.1 p.2 (probe p.1)).1)) },
   (reg.endpoints.map
        (fun p => (healthProbeEntry reg.metricsEnabled p.1 p.2 (probe p.1)).2)).flatten)

/-- Outcome of the `GET {base_url}/models` fetch for one endpoint: a network
error, or a response with a status and (for 2xx responses) the result of
parsing the body as a model list. -/
inductive FetchResult where
  | err : FetchResult
  | resp (status : Nat) (body : Option (List ModelDescriptor)) : FetchResult

/-- The `models_include` / `models_exclude` filtering applied after a
successful model-list fetch (retain if any include pattern matches, then
drop if any exclude pattern matches). -/
def applyFilters (meta : EndpointMeta) (models : List ModelDescriptor) : List ModelDescriptor :=
  let m1 := match meta.models_include with
    | some inc => models.filter (fun m => inc.any (fun pat => globMatch pat.toList m.id.toList))
    | none => models
  match meta.models_exclude with
  | some exc => m1.filter (fun m => !(exc.any (fun pat => globMatch pat.toList m.id.toList)))
  | none => m1

/-- Per-endpoint body of the loop in
`EndpointRegistry::discover_models_all_http`: unhealthy endpoints are
skipped (their `discovered_models` stay as last seen); on a parsed 2xx
response the filtered list replaces `discovered_models`; every failure path
leaves the entry unchanged and records a typed error. -/
def discoverEntry (metricsOn : Bool) (name : String) (e : EndpointEntry)
    (f : FetchResult) : EndpointEntry × List MetricEvent :=
  if !e.healthy then (e, [])
  else
    match f with
    | FetchResult.err =>
      (e, if metricsOn then [MetricEvent.errorKind (some name) "model_discovery_error"] else [])
    | FetchResult.resp status body =>
      if isSuccessStatus status then
        match body with
        | some list =>
          ({ e with discovered_models := applyFilters e.meta list },
           if metricsOn then [MetricEvent.requestEnd (some name) none true] else [])
        | none =>
          (e, if metricsOn then [MetricEvent.errorKind (some name) "model_discovery_parse"] else [])
      else
        (e, if metricsOn then [MetricEvent.errorKind (some name) "model_discovery_http_status"] else [])

/-- Model of `self.model_index.entry(id).or_insert_with(Vec::new).push(name)`:
append `name` to the bucket of `id`, creating the bucket if absent. -/
def indexInsert (idx : List (String × List String)) (id name : String) :
    List (String × List String) :=
  match idx with
  | [] => [(id, [name])]
  | (k, v) :: rest =>
    if k = id then (k, v ++ [name]) :: rest else (k, v) :: indexInsert rest id name

/-- Model of `EndpointRegistry::rebuild_model_index`: clear the index, then
push every endpoint's name into the bucket of each of its discovered models,
endpoints visited in the map's iteration order. -/
def rebuild_model_index (endpoints : List (String × EndpointEntry)) :
    List (String × List String) :=
  endpoints.foldl
    (fun idx p => p.2.discovered_models.foldl (fun idx2 m => indexInsert idx2 m.id p.1) idx)
    []

/-- Model of `EndpointRegistry::discover_models_all_http` followed by its
final `rebuild_model_index` call, with per-endpoint fetch outcomes supplied
by `fetch`. -/
def discover_models_all_http (reg : EndpointRegistry) (fetch : String → FetchResult) :
    EndpointRegistry × List MetricEvent :=
  let eps := reg.endpoints.map
    (fun p => (p.1, (discoverEntry reg.metricsEnabled p.1 p.2 (fetch p.1)).1))
  ({ reg with endpoints := eps, model_index := rebuild_model_index eps },
   (reg.endpoints.map
      (fun p => (discoverEntry reg.metricsEnabled p.1 p.2 (fetch p.1)).2)).flatten)

/-- The loop inside `EndpointRegistry::select_endpoint_for_model`: the first
name in the index bucket whose entry exists and is marked healthy. -/
def findHealthy (endpoints : List (String × EndpointEntry)) :
    List String → Option (String × EndpointEntry)
  | [] => none
  | n :: ns =>
    match assocGet endpoints n with
    | some e => if e.healthy then some (n, e) else findHealthy endpoints ns
    | none => findHealthy endpoints ns

/-- Model of `EndpointRegistry::select_endpoint_for_model`.  Note: the source
checks only `entry.healthy`; `active_requests` and `max_concurrent` are not
consulted (the source marks this as future work). -/
def select_endpoint_for_model (reg : EndpointRegistry) (model_id : String) :
    Option (String × EndpointEntry) :=
  match assocGet reg.model_index model_id with
  | none => none
  | some names => findHealthy reg.endpoints names

/-- Model of `labman_core::NodeCapabilities` (flattened metadata omitted;
the three support booleans are always `true` at this constructor). -/
structure NodeCapabilities where
  models : List ModelDescriptor
  endpoint_count : Nat
  max_concurrent_requests : Option Nat
  supports_streaming : Bool
  supports_chat : Bool
  supports_completions : Bool

/-- Rust `usize::MAX` on a 64-bit target. -/
def USIZE_MAX : Nat := 2 ^ 64 - 1

/-- Rust `usize::saturating_add`. -/
def satAdd (a b : Nat) : Nat := min (a + b) USIZE_MAX

/-- The dedup-by-id scan of `to_node_capabilities`: `seen` is the set of ids
already kept, `acc` the kept descriptors in first-occurrence order. -/
def capsScan : List ModelDescriptor → List String → List ModelDescriptor →
    List String × List ModelDescriptor
  | [], seen, acc => (seen, acc)
  | d :: ds, seen, acc =>
    if seen.contains d.id then capsScan ds seen acc
    else capsScan ds (d.id :: seen) (acc ++ [d])

/-- Unique models across all endpoints, first occurrence (in the map's
iteration order) winning. -/
def capsModels (endpoints : List (String × EndpointEntry)) : List ModelDescriptor :=
  (endpoints.foldl (fun st p => capsScan p.2.discovered_models st.1 st.2) ([], [])).2

/-- Model of `Iterator::reduce` with `usize::saturating_add`. -/
def reduceSat : List Nat → Option Nat
  | [] => none
  | x :: xs => some (xs.foldl satAdd x)

/-- Model of `EndpointRegistry::to_node_capabilities`. -/
def to_node_capabilities (reg : EndpointRegistry) : NodeCapabilities :=
  { models := capsModels reg.endpoints
    endpoint_count := reg.endpoints.length
    max_concurrent_requests :=
      reduceSat (reg.endpoints.filterMap (fun p => p.2.meta.max_concurrent))
    supports_streaming := true
    supports_chat := true
    supports_completions := true }

/-! ### OpenAI proxy handler (`labman-proxy/src/lib.rs`)

`post_chat_completions` is embedded as a function of the already-parsed
request (the `axum::Json` extractor), the registry snapshot used for
selection, and the upstream interaction's outcome.  The handler forwards the
request by re-serializing the parsed `ChatCompletionRequest`
(`client.post(url).json(&req_body)`), not the raw bytes the client sent. -/

/-- Model of `labman_proxy::ChatMessage`. -/
structure ChatMessage where
  role : String
  content : String

/-- Model of `labman_proxy::ChatCompletionRequest`: `model` required,
`messages` defaulting to empty, `stream` an optional bool, all remaining
fields captured by the `serde(flatten)` catch-all. -/
structure ChatCompletionRequest where
  model : String
  messages : List ChatMessage
  stream : Option Bool
  extra : List (String × JsonValue)

/-- Serde deserialization of `ChatMessage`: both fields required strings,
unknown fields ignored (and therefore dropped on re-serialization). -/
def parseChatMessage : JsonValue → Option ChatMessage
  | JsonValue.obj fs =>
    match jLookup fs "role", jLookup fs "content" with
    | some (JsonValue.str r), some (JsonValue.str c) => some ⟨r, c⟩
    | _, _ => none
  | _ => none

/-- Serde deserialization of the `messages` field: missing means the
`serde(default)` empty list; present requires an array of valid messages. -/
def parseMessages : Option JsonValue → Option (List ChatMessage)
  | none => some []
  | some (JsonValue.arr items) => items.mapM parseChatMessage
  | some _ => none

/-- Serde deserialization of the `stream` field: missing or `null` is
`None`, a boolean is `Some`, anything else is an error. -/
def parseStream : Option JsonValue → Option (Option Bool)
  | none => some none
  | some JsonValue.null => some none
  | some (JsonValue.bool b) => some (some b)
  | some _ => none

/-- The struct fields of `ChatCompletionRequest` consumed before the
`serde(flatten)` catch-all. -/
def chatRequestKeys : List String := ["model", "messages", "stream"]

/-- Serde deserialization of `ChatCompletionRequest` from a JSON body. -/
def parseChatCompletionRequest : JsonValue → Option ChatCompletionRequest
  | JsonValue.obj fs =>
    match jLookup fs "model" with
    | some (JsonValue.str m) =>
      match parseMessages (jLookup fs "messages"), parseStream (jLookup fs "stream") with
      | some msgs, some st =>
        some ⟨m, msgs, st, fs.filter (fun kv => !(chatRequestKeys.contains kv.1))⟩
      | _, _ => none
    | _ => none
  | _ => none

/-- Serde serialization of `ChatMessage`. -/
def serializeChatMessage (m : ChatMessage) : JsonValue :=
  JsonValue.obj [("role", JsonValue.str m.role), ("content", JsonValue.str m.content)]

/-- The field list serde emits for a `ChatCompletionRequest`: the three
declared fields are always present (`stream: None` serializes as `null`),
followed by the flattened extras. -/
def serializedChatFields (r : ChatCompletionRequest) : List (String × JsonValue) :=
  [("model", JsonValue.str r.model),
   ("messages", JsonValue.arr (r.messages.map serializeChatMessage)),
   ("stream", match r.stream with | none => JsonValue.null | some b => JsonValue.bool b)]
  ++ r.extra

/-- Serde serialization of `ChatCompletionRequest`. -/
def serializeChatCompletionRequest (r : ChatCompletionRequest) : JsonValue :=
  JsonValue.obj (serializedChatFields r)

/-- The JSON body the proxy POSTs upstream (`client.post(url).json(&req_body)`). -/
def upstreamBody (req : ChatCompletionRequest) : JsonValue :=
  serializeChatCompletionRequest req

/-- Outcome of the upstream POST: the send itself fails, or a response
arrives with a status; `bodyReadOk` tells whether buffering the body
succeeds (consulted only on the non-streaming path). -/
inductive UpstreamOutcome where
  | sendErr : UpstreamOutcome
  | resp (status : Nat) (bodyReadOk : Bool) : UpstreamOutcome

/-- Result of one run of the `post_chat_completions` handler: the HTTP
status returned to the client, the metric events recorded, and the registry
as left behind by the handler. -/
structure HandlerResult where
  status : Nat
  events : List MetricEvent
  registryAfter : EndpointRegistry

/-- Model of the `post_chat_completions` handler (`labman-proxy`, lines
236-346).  Selection takes the registry lock, reads
`select_endpoint_for_model`, and releases; the handler never mutates the
registry (in particular it never touches `active_requests`). -/
def post_chat_completions (reg : EndpointRegistry) (req : ChatCompletionRequest)
    (up : UpstreamOutcome) : HandlerResult :=
  match select_endpoint_for_model reg req.model with
  | none => ⟨400, [MetricEvent.errorKind none "model_not_found"], reg⟩
  | some (name, _entry) =>
    match up with
    | UpstreamOutcome.sendErr =>
      ⟨502, [MetricEvent.errorKind (some name) "upstream_request_error"], reg⟩
    | UpstreamOutcome.resp status bodyOk =>
      if req.stream.getD false then
        ⟨status, [MetricEvent.requestEnd (some name) (some req.model) (isSuccessStatus status)],
         reg⟩
      else if bodyOk then
        ⟨status, [MetricEvent.requestEnd (some name) (some req.model) (isSuccessStatus status)],
         reg⟩
      else
        ⟨502, [MetricEvent.errorKind (some name) "upstream_body_read_error"], reg⟩

/-! ### Portman WebSocket fabric (`labman-ws-portman/src/lib.rs`) -/

/-- Model of `MessageKind` (serde `rename_all = "snake_case"`, with
`serde(other)` folding unknown kinds into `Unknown` on deserialization). -/
inductive MessageKind where
  | RegisterAgent | Heartbeat | Metrics | OfferCapacity | DirectiveProgress
  | UsageReport | ResourceProfiles | AvailableModelCapacity
  | PreloadModel | EvictModel | AssignWorkload | UpdateRegistry | Drain | RestartAgent
  | Ack | Error | Unknown
deriving DecidableEq

/-- The canonical lower-snake serialization of a `MessageKind`, as computed
in `broadcast_to_observers` by serializing the kind and trimming quotes. -/
def kindString : MessageKind → String
  | MessageKind.RegisterAgent => "register_agent"
  | MessageKind.Heartbeat => "heartbeat"
  | MessageKind.Metrics => "metrics"
  | MessageKind.OfferCapacity => "offer_capacity"
  | MessageKind.DirectiveProgress => "directive_progress"
  | MessageKind.UsageReport => "usage_report"
  | MessageKind.ResourceProfiles => "resource_profiles"
  | MessageKind.AvailableModelCapacity => "available_model_capacity"
  | MessageKind.PreloadModel => "preload_model"
  | MessageKind.EvictModel => "evict_model"
  | MessageKind.AssignWorkload => "assign_workload"
  | MessageKind.UpdateRegistry => "update_registry"
  | MessageKind.Drain => "drain"
  | MessageKind.RestartAgent => "restart_agent"
  | MessageKind.Ack => "ack"
  | MessageKind.Error => "error"
  | MessageKind.Unknown => "unknown"

/-- Model of `StreamKind`. -/
inductive StreamKind where
  | all : StreamKind
  | byKind : StreamKind
deriving DecidableEq

/-- Model of `ObserverState` (`subscribed_kinds` is a `HashSet`, embedded as
a membership list; `kinds_filter` likewise). -/
structure ObserverState where
  subscribed_kinds : List StreamKind
  kinds_filter : Option (List String)

/-- Per-observer decision of the loop body in `broadcast_to_observers`:
skip when the observer subscribed to neither stream; when `ByKind` is
subscribed (even alongside `All`), require a filter that contains the
envelope's kind string; otherwise deliver. -/
def observerReceives (st : ObserverState) (kind_s : String) : Bool :=
  let wants_all := st.subscribed_kinds.contains StreamKind.all
  let wants_by_kind := st.subscribed_kinds.contains StreamKind.byKind
  if !wants_all && !wants_by_kind then false
  else if wants_by_kind then
    match st.kinds_filter with
    | some filt => filt.contains kind_s
    | none => false
  else true

/-- Connection ids that receive exactly one copy of an envelope of kind `k`
when broadcast over the given observer snapshot and sender snapshot. -/
def broadcastRecipients (snapshot : List (Nat × ObserverState)) (senderIds : List Nat)
    (k : MessageKind) : List Nat :=
  ((snapshot.filter (fun p => observerReceives p.2 (kindString k))).map Prod.fst).filter
    (fun id => senderIds.contains id)

/-- Model of `PortmanSubscriber`. -/
structure PortmanSubscriber where
  peer_addr : String
  connection_id : Nat
  agent_id : Option String

/-- Model of `InnerSubscribers` (`next_id: u64`, connections keyed by id). -/
structure InnerSubscribers where
  next_id : Nat
  connections : List (Nat × PortmanSubscriber)

/-- The u64 wrap modulus of `next_id.wrapping_add(1)`. -/
def U64_MOD : Nat := 2 ^ 64

/-- Model of `PortmanSubscribers::add`: hand out `next_id`, bump it with
wrapping addition, and insert the new subscriber. -/
def subscribersAdd (s : InnerSubscribers) (peer : String) :
    InnerSubscribers × PortmanSubscriber :=
  let sub : PortmanSubscriber := ⟨peer, s.next_id, none⟩
  (⟨(s.next_id + 1) % U64_MOD, s.connections ++ [(s.next_id, sub)]⟩, sub)

/-- Model of `PortmanSubscribers::len`. -/
def subscribersCount (s : InnerSubscribers) : Nat := s.connections.length

/-- The fresh agent registry at process start. -/
def emptySubscribers : InnerSubscribers := ⟨0, []⟩

/-- Agent registry after `n` agent connections (no removals). -/
def agentState : Nat → InnerSubscribers
  | 0 => emptySubscribers
  | n + 1 => (subscribersAdd (agentState n) "peer").1

/-- Model of the observer connection-id assignment in
`handle_observer_connection`: `state.subscribers.len() as u64 + 1_000_000`. -/
def observerConnectionId (subscriberCount : Nat) : Nat := subscriberCount + 1000000

/-- Model of `HashMap::insert` keyed by connection id: replaces the state of
an existing key, otherwise appends. -/
def observersInsert (m : List (Nat × ObserverState)) (id : Nat) (st : ObserverState) :
    List (Nat × ObserverState) :=
  if m.any (fun p => p.1 = id) then
    m.map (fun p => if p.1 = id then (id, st) else p)
  else m ++ [(id, st)]

/-- Model of `Observers::add`: register the connection with the default
(empty) subscription. -/
def observersAdd (m : List (Nat × ObserverState)) (id : Nat) : List (Nat × ObserverState) :=
  observersInsert m id ⟨[], none⟩



/-! ### Helper views used by the theorems -/

/-- Whether the entry registered under `n` exists and is marked healthy
(the exact per-name test of the selection loop). -/
def healthyAt (endpoints : List (String × EndpointEntry)) (n : String) : Bool :=
  match assocGet endpoints n with
  | some e => e.healthy
  | none => false

/-- The index bucket for a model id (empty when the model is unknown). -/
def bucketOf (reg : EndpointRegistry) (m : String) : List String :=
  (assocGet reg.model_index m).getD []

/-- Endpoint names advertising model `m`, one occurrence per matching
descriptor, in the map's iteration order: exactly the pushes
`rebuild_model_index` performs into `m`'s bucket. -/
def modelOcc (endpoints : List (String × EndpointEntry)) (m : String) : List String :=
  (endpoints.map
    (fun p => (p.2.discovered_models.filter (fun d => d.id = m)).map (fun _ => p.1))).flatten

/-- Endpoint names whose `discovered_models` contain a descriptor with id
`m`, in the map's iteration order. -/
def advertisers (endpoints : List (String × EndpointEntry)) (m : String) : List String :=
  (endpoints.filter (fun p => p.2.discovered_models.any (fun d => d.id = m))).map Prod.fst

/-- Whether a probe outcome counts as healthy (a 2xx response). -/
def probeSucceeded : ProbeResult → Bool
  | ProbeResult.ok s => isSuccessStatus s
  | ProbeResult.err => false

/-- The metric events the spec prescribes for one endpoint's probe outcome:
a request-end success for 2xx, a `health_http_status` error for other
statuses, a `health_http_error` error for network failures (nothing when
metrics are disabled). -/
def healthEventFor (metricsOn : Bool) (name : String) : ProbeResult → List MetricEvent
  | ProbeResult.ok s =>
    if metricsOn then
      (if isSuccessStatus s then [MetricEvent.requestEnd (some name) none true]
       else [MetricEvent.errorKind (some name) "health_http_status"])
    else []
  | ProbeResult.err =>
    if metricsOn then [MetricEvent.errorKind (some name) "health_http_error"] else []

/-! ### Concrete fixtures used by counterexamples and witnesses -/

/-- A bare model descriptor with id `m`. -/
def mdM : ModelDescriptor := ⟨"m", none, none, JsonValue.null⟩

/-- A healthy endpoint entry named `a` advertising model `m`, with
`max_concurrent = Some(0)` and `active_requests = 0` (the state every entry
starts in, made healthy by a probe and populated by discovery). -/
def entryACap0 : EndpointEntry :=
  ⟨Endpoint.new "a" "http://127.0.0.1:1111/v1", ⟨some 0, none, none⟩, 0, true, [mdM]⟩

/-- Registry holding `entryACap0` with its rebuilt index. -/
def regCap0 : EndpointRegistry :=
  ⟨[("a", entryACap0)], rebuild_model_index [("a", entryACap0)], false⟩

/-- A healthy endpoint entry named `a` advertising `m` with no cap. -/
def entryAFree : EndpointEntry :=
  ⟨Endpoint.new "a" "http://127.0.0.1:1111/v1", ⟨none, none, none⟩, 0, true, [mdM]⟩

/-- Registry holding `entryAFree` with its rebuilt index. -/
def regFree : EndpointRegistry :=
  ⟨[("a", entryAFree)], rebuild_model_index [("a", entryAFree)], false⟩

/-- A parsed chat-completion request for model `m` with no messages, no
`stream` field and no extra fields. -/
def chatReqM : ChatCompletionRequest := ⟨"m", [], none, []⟩

/-- A freshly configured endpoint entry (from `from_config`: unhealthy,
zero failures) registered under `a`, with metrics enabled on the registry. -/
def entryAFresh : EndpointEntry :=
  ⟨Endpoint.new "a" "http://127.0.0.1:1111/v1", ⟨none, none, none⟩, 0, false, []⟩

/-- Registry holding only `entryAFresh`, metrics enabled. -/
def regFresh : EndpointRegistry := ⟨[("a", entryAFresh)], [], true⟩

/-- Config declaring endpoint `a` first. -/
def cfgA : EndpointConfig := ⟨"a", "http://127.0.0.1:1111/v1", none, none, none⟩

/-- Config declaring endpoint `b` second. -/
def cfgB : EndpointConfig := ⟨"b", "http://127.0.0.1:2222/v1", none, none, none⟩

/-- The entry for `a` after a healthy probe and a discovery pass returning
`[m]`. -/
def entryADisc : EndpointEntry :=
  { entryOfConfig cfgA (Endpoint.new "a" "http://127.0.0.1:1111/v1") with
      healthy := true, discovered_models := [mdM] }

/-- The entry for `b` after a healthy probe and a discovery pass returning
`[m]`. -/
def entryBDisc : EndpointEntry :=
  { entryOfConfig cfgB (Endpoint.new "b" "http://127.0.0.1:2222/v1") with
      healthy := true, discovered_models := [mdM] }

/-- The endpoints of the `[cfgA, cfgB]` registry in configuration
(insertion) order. -/
def endpointsConfigOrder : List (String × EndpointEntry) :=
  [("a", entryADisc), ("b", entryBDisc)]

/-- The same map contents in the reversed iteration order, which is an
equally legal `HashMap` iteration order for this map. -/
def endpointsPermOrder : List (String × EndpointEntry) :=
  [("b", entryBDisc), ("a", entryADisc)]

/-- A minimal chat-completion body: only the required `model` field. -/
def fieldsModelOnly : List (String × JsonValue) := [("model", JsonValue.str "llama3")]

/-- What `fieldsModelOnly` parses to. -/
def reqModelOnly : ChatCompletionRequest := ⟨"llama3", [], none, []⟩

/-- A body with one unknown field next to `model`. -/
def fieldsWithExtra : List (String × JsonValue) :=
  [("model", JsonValue.str "llama3"), ("temperature", JsonValue.num "0.7")]

/-- What `fieldsWithExtra` parses to. -/
def reqWithExtra : ChatCompletionRequest :=
  ⟨"llama3", [], none, [("temperature", JsonValue.num "0.7")]⟩

/-- An unhealthy endpoint entry named `u` still holding model `m` from a
discovery pass that ran while it was healthy. -/
def entryUStale : EndpointEntry :=
  ⟨Endpoint.new "u" "http://127.0.0.1:3333/v1", ⟨none, none, none⟩, 0, false, [mdM]⟩

/-- Registry whose only endpoint is the unhealthy `entryUStale`. -/
def regStale : EndpointRegistry :=
  ⟨[("u", entryUStale)], rebuild_model_index [("u", entryUStale)], false⟩

/-- An observer subscribed to both `all` and `by_kind` with an empty
`kinds_filter`. -/
def obsAllAndByKind : ObserverState := ⟨[StreamKind.all, StreamKind.byKind], some []⟩

/-! ### Glob matcher lemmas -/

theorem startsWithL_iff (pre l : List Char) :
    startsWithL pre l = true ↔ ∃ r, l = pre ++ r := by
  unfold startsWithL
  rw [decide_eq_true_iff]
  constructor
  · intro h
    exact ⟨l.drop pre.length, by conv_lhs => rw [← List.take_append_drop pre.length l, h]⟩
  · rintro ⟨r, rfl⟩
    exact List.take_left pre r

theorem endsWithL_iff (suf l : List Char) :
    endsWithL suf l = true ↔ ∃ w, l = w ++ suf := by
  unfold endsWithL
  rw [Bool.and_eq_true, decide_eq_true_iff, decide_eq_true_iff]
  constructor
  · rintro ⟨hle, hdrop⟩
    refine ⟨l.take (l.length - suf.length), ?_⟩
    conv_lhs => rw [← List.take_append_drop (l.length - suf.length) l, hdrop]
  · rintro ⟨w, rfl⟩
    have hlen : (w ++ suf).length - suf.length = w.length := by simp
    constructor
    · simp
    · rw [hlen, List.drop_left]

theorem nil_eq_append3 {w n r : List Char} (h : ([] : List Char) = w ++ n ++ r) :
    w = [] ∧ n = [] ∧ r = [] := by
  have hl := congrArg List.length h
  simp only [List.length_nil, List.length_append] at hl
  refine ⟨List.length_eq_zero.mp ?_, List.length_eq_zero.mp ?_, List.length_eq_zero.mp ?_⟩
    <;> omega

theorem dropAfterFirst_none {n h : List Char} (hd : dropAfterFirst n h = none) :
    ¬ ∃ w r, h = w ++ n ++ r := by
  induction h with
  | nil =>
    rintro ⟨w, r, hwr⟩
    obtain ⟨-, hn, -⟩ := nil_eq_append3 hwr
    unfold dropAfterFirst at hd
    rw [if_pos] at hd
    · exact Option.noConfusion hd
    · rw [startsWithL_iff]
      exact ⟨[], by rw [hn]; rfl⟩
  | cons c t ih =>
    rintro ⟨w, r, hwr⟩
    unfold dropAfterFirst at hd
    by_cases hs : startsWithL n (c :: t) = true
    · rw [if_pos hs] at hd; exact Option.noConfusion hd
    · rw [if_neg hs] at hd
      cases w with
      | nil =>
        apply hs
        rw [startsWithL_iff]
        refine ⟨r, ?_⟩
        rw [hwr]; rfl
      | cons a as =>
        have ht : t = as ++ n ++ r := by
          simp only [List.cons_append] at hwr
          exact (List.cons.injEq _ _ _ _).mp hwr |>.2
        exact ih hd ⟨as, r, ht⟩

theorem dropAfterFirst_some_ex {n h r' : List Char}
    (hd : dropAfterFirst n h = some r') : ∃ w, h = w ++ n ++ r' := by
  induction h with
  | nil =>
    unfold dropAfterFirst at hd
    by_cases hs : startsWithL n [] = true
    · rw [if_pos hs] at hd
      rw [startsWithL_iff] at hs
      obtain ⟨r, hr⟩ := hs
      obtain ⟨hn, -⟩ := by
        have : ([] : List Char) = n ++ r ++ [] := by rw [← hr]; rfl
        exact nil_eq_append3 this
      have hr' : r' = [] := by injection hd with h2; exact h2.symm
      refine ⟨[], ?_⟩
      rw [hn, hr']; rfl
    · rw [if_neg hs] at hd; exact Option.noConfusion hd
  | cons c t ih =>
    unfold dropAfterFirst at hd
    by_cases hs : startsWithL n (c :: t) = true
    · rw [if_pos hs] at hd
      rw [startsWithL_iff] at hs
      obtain ⟨r, hr⟩ := hs
      refine ⟨[], ?_⟩
      have hdrop : (c :: t).drop n.length = r := by
        rw [hr, List.drop_left]
      rw [hdrop] at hd
      injection hd with h2
      subst h2
      rw [List.nil_append]
      exact hr
    · rw [if_neg hs] at hd
      obtain ⟨w, hw⟩ := ih hd
      refine ⟨c :: w, ?_⟩
      simp only [List.cons_append]
      rw [← hw]

theorem dropAfterFirst_leftmost {n h r' : List Char}
    (hd : dropAfterFirst n h = some r') :
    ∀ w r2, h = w ++ n ++ r2 → ∃ x, r' = x ++ r2 := by
  induction h with
  | nil =>
    intro w r2 hwr
    obtain ⟨-, -, hr2⟩ := nil_eq_append3 hwr
    exact ⟨r', by rw [hr2, List.append_nil]⟩
  | cons c t ih =>
    intro w r2 hwr
    unfold dropAfterFirst at hd
    by_cases hs : startsWithL n (c :: t) = true
    · rw [if_pos hs] at hd
      injection hd with h2
      have hr2 : r2 = (c :: t).drop (w.length + n.length) := by
        rw [hwr]
        rw [show w ++ n ++ r2 = (w ++ n) ++ r2 from by rw [List.append_assoc]]
        rw [show w.length + n.length = (w ++ n).length from (List.length_append w n).symm]
        rw [List.drop_left]
      have hr' : r' = (c :: t).drop n.length := h2.symm
      refine ⟨((c :: t).drop n.length).take w.length, ?_⟩
      rw [hr2, hr']
      conv_lhs => rw [← List.take_append_drop w.length ((c :: t).drop n.length)]
      congr 1
      rw [List.drop_drop]
      congr 1
      omega
    · rw [if_neg hs] at hd
      cases w with
      | nil =>
        exfalso
        apply hs
        rw [startsWithL_iff]
        refine ⟨r2, ?_⟩
        rw [hwr]; rfl
      | cons a as =>
        have ht : t = as ++ n ++ r2 := by
          simp only [List.cons_append] at hwr
          exact (List.cons.injEq _ _ _ _).mp hwr |>.2
        exact ih hd as r2 ht

theorem starTail_mono {q : List Char} {qs : List (List Char)} {r x : List Char}
    (h : StarTail (q :: qs) r) : StarTail (q :: qs) (x ++ r) := by
  obtain ⟨w, r2, hr, hst⟩ := h
  exact ⟨x ++ w, r2, by rw [hr]; simp [List.append_assoc], hst⟩

theorem matchTail_iff : ∀ (qs : List (List Char)) (r : List Char), qs ≠ [] →
    (matchTail qs r = true ↔ StarTail qs r) := by
  intro qs
  induction qs with
  | nil => intro r h; exact absurd rfl h
  | cons q qs ih =>
    intro r _
    cases qs with
    | nil =>
      show (decide (q = []) || endsWithL q r) = true ↔ _
      rw [Bool.or_eq_true, decide_eq_true_iff, endsWithL_iff]
      show _ ↔ ∃ w r2, r = w ++ q ++ r2 ∧ r2 = []
      constructor
      · rintro (hq | ⟨w, hw⟩)
        · exact ⟨r, [], by rw [hq]; simp, rfl⟩
        · exact ⟨w, [], by rw [hw]; simp, rfl⟩
      · rintro ⟨w, r2, hr, rfl⟩
        right
        exact ⟨w, by rw [hr]; simp⟩
    | cons q' qs' =>
      show (match dropAfterFirst q r with
            | none => false
            | some r1 => matchTail (q' :: qs') r1) = true ↔ _
      cases hdrop : dropAfterFirst q r with
      | none =>
        simp only [Bool.false_eq_true, false_iff]
        rintro ⟨w, r2, hr, -⟩
        exact dropAfterFirst_none hdrop ⟨w, r2, hr⟩
      | some r1 =>
        simp only []
        rw [ih r1 (by simp)]
        constructor
        · intro hst
          obtain ⟨w, hw⟩ := dropAfterFirst_some_ex hdrop
          exact ⟨w, r1, hw, hst⟩
        · rintro ⟨w, r2, hr, hst⟩
          obtain ⟨x, hx⟩ := dropAfterFirst_leftmost hdrop w r2 hr
          rw [hx]
          exact starTail_mono hst

theorem splitOnStar_ne_nil (p : List Char) : splitOnStar p ≠ [] := by
  cases p with
  | nil => simp [splitOnStar]
  | cons c rest =>
    unfold splitOnStar
    by_cases hc : c = '*'
    · rw [if_pos hc]; simp
    · rw [if_neg hc]
      cases splitOnStar rest <;> simp

theorem splitOnStar_single {p q : List Char} (h : splitOnStar p = [q]) : p = q := by
  induction p generalizing q with
  | nil =>
    simp only [splitOnStar, List.cons.injEq, and_true] at h
    exact h
  | cons c rest ih =>
    unfold splitOnStar at h
    by_cases hc : c = '*'
    · rw [if_pos hc] at h
      injection h with h1 h2
      exact absurd h2 (splitOnStar_ne_nil rest)
    · rw [if_neg hc] at h
      cases hs : splitOnStar rest with
      | nil => exact absurd hs (splitOnStar_ne_nil rest)
      | cons s ss =>
        rw [hs] at h
        injection h with h1 h2
        subst h2
        rw [← h1, ih hs]

theorem splitOnStar_no_star {p : List Char} (h : '*' ∉ p) : splitOnStar p = [p] := by
  induction p with
  | nil => rfl
  | cons c rest ih =>
    have hc : c ≠ '*' := fun hc => h (hc ▸ List.mem_cons_self c rest)
    have hrest : '*' ∉ rest := fun hr => h (List.mem_cons_of_mem c hr)
    unfold splitOnStar
    rw [if_neg hc, ih hrest]

theorem globMatch_iff_partsMatch (p t : List Char) :
    globMatch p t = true ↔ PartsMatch (splitOnStar p) t := by
  unfold globMatch
  by_cases hp : p = ['*']
  · rw [if_pos hp, hp]
    constructor
    · intro _
      show PartsMatch [[], []] t
      exact ⟨t, by simp, t, [], by simp, rfl⟩
    · intro _
      rfl
  · rw [if_neg hp]
    cases hs : splitOnStar p with
    | nil => exact absurd hs (splitOnStar_ne_nil p)
    | cons q qs =>
      cases qs with
      | nil =>
        rw [decide_eq_true_iff]
        have hpq : p = q := splitOnStar_single hs
        subst hpq
        show p = t ↔ ∃ r, t = p ++ r ∧ r = []
        constructor
        · intro h; exact ⟨[], by rw [h]; simp, rfl⟩
        · rintro ⟨r, hr, rfl⟩; rw [hr]; simp
      | cons q1 qs1 =>
        rw [Bool.and_eq_true]
        show _ ↔ ∃ r, t = q ++ r ∧ StarTail (q1 :: qs1) r
        constructor
        · rintro ⟨hstart, htail⟩
          rw [startsWithL_iff] at hstart
          obtain ⟨r, hr⟩ := hstart
          refine ⟨r, hr, ?_⟩
          rw [← matchTail_iff (q1 :: qs1) r (by simp)]
          have hdrop : t.drop q.length = r := by rw [hr, List.drop_left]
          rw [← hdrop]
          exact htail
        · rintro ⟨r, hr, hst⟩
          have hdrop : t.drop q.length = r := by rw [hr, List.drop_left]
          constructor
          · rw [startsWithL_iff]; exact ⟨r, hr⟩
          · rw [hdrop, matchTail_iff (q1 :: qs1) r (by simp)]
            exact hst

theorem rmatch_lits_append (q : List Char) (rs : List RAtom) (t : List Char) :
    RMatch (q.map RAtom.lit ++ rs) t ↔ ∃ r, t = q ++ r ∧ RMatch rs r := by
  induction q generalizing t with
  | nil =>
    simp only [List.map_nil, List.nil_append]
    constructor
    · intro h; exact ⟨t, rfl, h⟩
    · rintro ⟨r, rfl, h⟩; exact h
  | cons c cs ih =>
    simp only [List.map_cons, List.cons_append]
    constructor
    · intro h
      cases h with
      | lit h' =>
        obtain ⟨r, rfl, hr⟩ := (ih _).mp h'
        exact ⟨r, rfl, hr⟩
    · rintro ⟨r, rfl, hr⟩
      exact RMatch.lit ((ih _).mpr ⟨r, rfl, hr⟩)

theorem rmatch_star (rs : List RAtom) (t : List Char) :
    RMatch (RAtom.star :: rs) t ↔ ∃ w r, t = w ++ r ∧ RMatch rs r := by
  induction t with
  | nil =>
    constructor
    · intro h
      cases h with
      | starEmpty h' => exact ⟨[], [], rfl, h'⟩
    · rintro ⟨w, r, hwr, hr⟩
      have hl := congrArg List.length hwr
      simp only [List.length_nil, List.length_append] at hl
      have hr2 : r = [] := List.length_eq_zero.mp (by omega)
      subst hr2
      exact RMatch.starEmpty hr
  | cons c t ih =>
    constructor
    · intro h
      cases h with
      | starEmpty h' => exact ⟨[], c :: t, rfl, h'⟩
      | starCons h' =>
        obtain ⟨w, r, hwr, hr⟩ := ih.mp h'
        exact ⟨c :: w, r, by rw [hwr]; rfl, hr⟩
    · rintro ⟨w, r, hwr, hr⟩
      cases w with
      | nil =>
        rw [List.nil_append] at hwr
        subst hwr
        exact RMatch.starEmpty hr
      | cons a as =>
        simp only [List.cons_append, List.cons.injEq] at hwr
        obtain ⟨rfl, hta⟩ := hwr
        exact RMatch.starCons (ih.mpr ⟨as, r, hta, hr⟩)

theorem rmatch_atoms : ∀ (qs : List (List Char)) (t : List Char), qs ≠ [] →
    (RMatch (regexAtoms qs) t ↔ PartsMatch qs t) := by
  intro qs
  induction qs with
  | nil => intro t h; exact absurd rfl h
  | cons q qs ih =>
    intro t _
    show RMatch (q.map RAtom.lit ++ _) t ↔ ∃ r, t = q ++ r ∧ StarTail qs r
    rw [rmatch_lits_append]
    cases qs with
    | nil =>
      simp only [List.map_nil, List.flatten]
      constructor
      · rintro ⟨r, rfl, hr⟩
        cases hr
        exact ⟨[], rfl, rfl⟩
      · rintro ⟨r, rfl, hr⟩
        show ∃ r2, q ++ r = q ++ r2 ∧ RMatch [] r2
        rw [show r = ([] : List Char) from hr]
        exact ⟨[], rfl, RMatch.nil⟩
    | cons q1 qs1 =>
      have hjoin : ((q1 :: qs1).map (fun r => RAtom.star :: r.map RAtom.lit)).flatten
          = RAtom.star :: regexAtoms (q1 :: qs1) := by
        simp only [List.map_cons, List.flatten, regexAtoms]
        rfl
      rw [hjoin]
      constructor
      · rintro ⟨r, rfl, hr⟩
        rw [rmatch_star] at hr
        obtain ⟨w, r2, rfl, hr2⟩ := hr
        rw [ih r2 (by simp)] at hr2
        obtain ⟨r3, rfl, hst⟩ := hr2
        exact ⟨w ++ (q1 ++ r3), rfl, w, r3, by simp, hst⟩
      · rintro ⟨r, rfl, w, r2, rfl, hst⟩
        refine ⟨w ++ q1 ++ r2, rfl, ?_⟩
        rw [rmatch_star]
        refine ⟨w, q1 ++ r2, by simp, ?_⟩
        rw [ih (q1 ++ r2) (by simp)]
        exact ⟨r2, rfl, hst⟩

theorem regexOfGlob_eq_atoms (p : List Char) :
    regexOfGlob p = regexAtoms (splitOnStar p) := by
  induction p with
  | nil => rfl
  | cons c rest ih =>
    unfold regexOfGlob splitOnStar
    by_cases hc : c = '*'
    · rw [if_pos hc]
      simp only [List.map_cons, if_pos hc]
      cases hs : splitOnStar rest with
      | nil => exact absurd hs (splitOnStar_ne_nil rest)
      | cons s ss =>
        show RAtom.star :: rest.map _ = regexAtoms ([] :: s :: ss)
        have : regexAtoms ([] :: s :: ss) = RAtom.star :: regexAtoms (s :: ss) := by
          simp only [regexAtoms, List.map_nil, List.nil_append, List.map_cons, List.flatten]
          rfl
        rw [this, ← hs, ← ih]
        rfl
    · rw [if_neg hc]
      simp only [List.map_cons, if_neg hc]
      cases hs : splitOnStar rest with
      | nil => exact absurd hs (splitOnStar_ne_nil rest)
      | cons s ss =>
        show RAtom.lit c :: rest.map _ = regexAtoms ((c :: s) :: ss)
        have : regexAtoms ((c :: s) :: ss) = RAtom.lit c :: regexAtoms (s :: ss) := by
          simp only [regexAtoms, List.map_cons, List.cons_append]
        rw [this, ← hs, ← ih]
        rfl

theorem globMatch_iff_rmatch (p t : List Char) :
    globMatch p t = true ↔ RMatch (regexOfGlob p) t := by
  rw [globMatch_iff_partsMatch, regexOfGlob_eq_atoms,
      rmatch_atoms (splitOnStar p) t (splitOnStar_ne_nil p)]

theorem rmatch_self (s : List Char) : RMatch (regexOfGlob s) s := by
  induction s with
  | nil => exact RMatch.nil
  | cons c rest ih =>
    unfold regexOfGlob
    simp only [List.map_cons]
    by_cases hc : c = '*'
    · rw [if_pos hc]
      exact RMatch.starCons (RMatch.starEmpty ih)
    · rw [if_neg hc]
      exact RMatch.lit ih
/-- Claim C8: for every pattern `p` and string `s`, `glob_match(p, s)` equals
the reference regex translation `^<p with * replaced by .*>$` applied to
`s`; in particular every string matches itself as a literal pattern, `"*"`
matches every string, and a pattern with no `*` matches exactly the
identical string. -/
theorem glob_match_spec :
    (∀ p t, globMatch p t = true ↔ RMatch (regexOfGlob p) t) ∧
    (∀ s, globMatch s s = true) ∧
    (∀ s, globMatch ['*'] s = true) ∧
    (∀ p t, '*' ∉ p → (globMatch p t = true ↔ p = t)) := by
  refine ⟨globMatch_iff_rmatch, ?_, ?_, ?_⟩
  · intro s
    exact (globMatch_iff_rmatch s s).mpr (rmatch_self s)
  · intro s
    unfold globMatch
    rw [if_pos rfl]
  · intro p t hp
    by_cases hstar : p = ['*']
    · exact absurd (hstar ▸ List.mem_singleton_self '*') (hstar ▸ hp)
    · unfold globMatch
      rw [if_neg hstar, splitOnStar_no_star hp]
      simp only [decide_eq_true_iff]

/-- Witness for C8's hypothesised conjunct: the no-star pattern `['a']` is
star-free and matches exactly itself. -/
theorem glob_match_spec_witness :
    ('*' ∉ ['a']) ∧ (globMatch ['a'] ['a'] = true ↔ ['a'] = ['a']) :=
  ⟨by decide, glob_match_spec.2.2.2 ['a'] ['a'] (by decide)⟩

/-! ### Selection (claim C1) -/

theorem findHealthy_eq (endpoints : List (String × EndpointEntry)) :
    ∀ names, findHealthy endpoints names
      = (List.find? (healthyAt endpoints) names).bind
          (fun n => (assocGet endpoints n).map (fun e => (n, e))) := by
  intro names
  induction names with
  | nil => rfl
  | cons n ns ih =>
    show (match assocGet endpoints n with
          | some e => if e.healthy then some (n, e) else findHealthy endpoints ns
          | none => findHealthy endpoints ns) = _
    cases h : assocGet endpoints n with
    | none =>
      have hp : healthyAt endpoints n = false := by simp [healthyAt, h]
      rw [List.find?_cons_of_neg _ (by simp [hp])]
      exact ih
    | some e =>
      by_cases he : e.healthy
      · have hp : healthyAt endpoints n = true := by simp [healthyAt, h, he]
        rw [List.find?_cons_of_pos _ hp]
        simp [he, h]
      · have hp : healthyAt endpoints n = false := by simp [healthyAt, h, he]
        rw [List.find?_cons_of_neg _ (by simp [hp])]
        simp [he]
        exact ih

/-- Claim C1 (amended): `select_endpoint_for_model(m)` returns the first
endpoint name in `ModelIndex[m]` whose entry exists and is currently
healthy — `active_requests` and `max_concurrent` are not consulted — and
returns absent exactly when no endpoint in the bucket is healthy. -/
theorem select_endpoint_spec : ∀ (reg : EndpointRegistry) (m : String),
    (select_endpoint_for_model reg m
      = (List.find? (healthyAt reg.endpoints) (bucketOf reg m)).bind
          (fun n => (assocGet reg.endpoints n).map (fun e => (n, e)))) ∧
    ((select_endpoint_for_model reg m).isNone
      ↔ ∀ n ∈ bucketOf reg m, healthyAt reg.endpoints n = false) := by
  intro reg m
  have hsel : select_endpoint_for_model reg m
      = (List.find? (healthyAt reg.endpoints) (bucketOf reg m)).bind
          (fun n => (assocGet reg.endpoints n).map (fun e => (n, e))) := by
    unfold select_endpoint_for_model bucketOf
    cases h : assocGet reg.model_index m with
    | none => rfl
    | some names =>
      show findHealthy reg.endpoints names = _
      exact findHealthy_eq reg.endpoints names
  refine ⟨hsel, ?_⟩
  rw [hsel]
  cases hf : List.find? (healthyAt reg.endpoints) (bucketOf reg m) with
  | none =>
    simp only [Option.bind]
    constructor
    · intro _ n hn
      have := List.find?_eq_none.mp hf n hn
      exact Bool.eq_false_iff.mpr this
    · intro _; rfl
  | some n =>
    have hp : healthyAt reg.endpoints n = true := List.find?_some hf
    have hmem : n ∈ bucketOf reg m := List.mem_of_find?_eq_some hf
    cases hg : assocGet reg.endpoints n with
    | none => simp [healthyAt, hg] at hp
    | some e =>
      simp only [Option.bind, hg, Option.map]
      constructor
      · intro h; exact absurd h (by simp)
      · intro h
        have := h n hmem
        rw [hp] at this
        exact absurd this (by simp)

/-- Counterexample to claim C1 as stated: in `regCap0` endpoint `a` is
healthy with `max_concurrent = Some(0)` and `active_requests = 0`, so no
endpoint has `active_requests` strictly below its cap — the claim demands
`None` — yet selection returns `a`. -/
theorem select_endpoint_cap_cex :
    (select_endpoint_for_model regCap0 "m").map Prod.fst = some "a" ∧
    (select_endpoint_for_model regCap0 "m").map (fun p => p.2.meta.max_concurrent)
      = some (some 0) ∧
    (select_endpoint_for_model regCap0 "m").map (fun p => p.2.active_requests) = some 0 := by
  refine ⟨?_, ?_, ?_⟩ <;> rfl

/-! ### Proxy handler state (claim C2) -/

/-- Claim C2 (amended): the chat-completions handler performs no slot
accounting at all — selection does not increment `active_requests` and no
decrement occurs on any exit path (success, upstream error, buffering
error); the registry, and in particular every endpoint's `active_requests`,
is left exactly as it was. -/
theorem chat_completions_registry_unchanged :
    ∀ (reg : EndpointRegistry) (req : ChatCompletionRequest) (up : UpstreamOutcome),
    ((post_chat_completions reg req up).registryAfter = reg) ∧
    (∀ n, ((assocGet (post_chat_completions reg req up).registryAfter.endpoints n).map
            (fun e => e.active_requests))
          = ((assocGet reg.endpoints n).map (fun e => e.active_requests))) := by
  intro reg req up
  have h : (post_chat_completions reg req up).registryAfter = reg := by
    unfold post_chat_completions
    cases select_endpoint_for_model reg req.model with
    | none => rfl
    | some p =>
      cases p with
      | mk name entry =>
        cases up with
        | sendErr => rfl
        | resp status bodyOk =>
          by_cases hs : req.stream.getD false
          · simp [hs]
          · by_cases hb : bodyOk
            · simp [hs, hb]
            · simp [hs, hb]
  exact ⟨h, fun n => by rw [h]⟩

/-- Counterexample to claim C2 as stated: in `regFree` the request for `m`
selects endpoint `a` whose `active_requests` is `0`, and after the whole
handler run (selection included) it is still `0`, not the `0 + 1` the
claimed selection-time increment would produce. -/
theorem chat_completions_no_increment_cex :
    (select_endpoint_for_model regFree "m").map Prod.fst = some "a" ∧
    ((assocGet (post_chat_completions regFree chatReqM
        (UpstreamOutcome.resp 200 true)).registryAfter.endpoints "a").map
      (fun e => e.active_requests)) = some 0 ∧
    some (0 : Nat) ≠ some 1 := by
  refine ⟨rfl, rfl, by decide⟩

/-! ### Proxy error taxonomy (claim C7) -/

/-- Claim C7: within the handler for a parsed request, the response is 400
with a `model_not_found` metric error exactly when selection fails; 502
with `upstream_request_error` exactly when an endpoint was selected and the
upstream send fails; and 502 with `upstream_body_read_error` exactly when
an endpoint was selected, the request is non-streaming, and buffering the
upstream body fails. -/
theorem chat_completions_errors_spec :
    ∀ (reg : EndpointRegistry) (req : ChatCompletionRequest) (up : UpstreamOutcome),
    (((post_chat_completions reg req up).status = 400 ∧
        MetricEvent.errorKind none "model_not_found"
          ∈ (post_chat_completions reg req up).events)
      ↔ select_endpoint_for_model reg req.model = none) ∧
    ((∃ n, (post_chat_completions reg req up).status = 502 ∧
        MetricEvent.errorKind (some n) "upstream_request_error"
          ∈ (post_chat_completions reg req up).events)
      ↔ ((select_endpoint_for_model reg req.model).isSome ∧ up = UpstreamOutcome.sendErr)) ∧
    ((∃ n, (post_chat_completions reg req up).status = 502 ∧
        MetricEvent.errorKind (some n) "upstream_body_read_error"
          ∈ (post_chat_completions reg req up).events)
      ↔ ((select_endpoint_for_model reg req.model).isSome ∧ req.stream.getD false = false ∧
          ∃ s, up = UpstreamOutcome.resp s false)) := by
  intro reg req up
  unfold post_chat_completions
  cases hsel : select_endpoint_for_model reg req.model with
  | none =>
    refine ⟨by simp, by simp, by simp⟩
  | some p =>
    cases p with
    | mk name entry =>
      cases up with
      | sendErr => refine ⟨by simp, by simp, by simp⟩
      | resp status bodyOk =>
        by_cases hs : req.stream.getD false
        · simp only [hs, if_true]
          refine ⟨by simp, by simp, ?_⟩
          simp [hs]
        · by_cases hb : bodyOk
          · simp only [hs, hb, if_false, if_true]
            refine ⟨by simp, by simp, ?_⟩
            simp [hs, hb]
          · simp only [hs, hb, if_false]
            refine ⟨by simp, by simp, ?_⟩
            simp [hs, hb]

/-! ### Observer fan-out (claim C4) -/

/-- Claim C4 failing input: an observer whose `subscribed_kinds` contain
both `All` and `ByKind` and whose `kinds_filter` does not contain the
envelope's kind.  The fan-out rule (and the code's own doc comment on
`broadcast_to_observers`) says the `All` subscription delivers every
envelope, but the loop's `ByKind` filter check `continue`s before the `All`
subscription is honoured, so the observer's channel receives nothing. -/
theorem broadcast_all_and_bykind_dropped :
    obsAllAndByKind.subscribed_kinds.contains StreamKind.all = true ∧
    observerReceives obsAllAndByKind (kindString MessageKind.Heartbeat) = false ∧
    broadcastRecipients [(1000000, obsAllAndByKind)] [1000000] MessageKind.Heartbeat = [] := by
  refine ⟨rfl, rfl, rfl⟩

/-! ### Connection identifiers (claim C9) -/

theorem agentState_next_id : ∀ n, (agentState n).next_id = n % U64_MOD := by
  intro n
  induction n with
  | zero => rfl
  | succ k ih =>
    show ((agentState k).next_id + 1) % U64_MOD = (k + 1) % U64_MOD
    rw [ih]
    have hmod : U64_MOD = 18446744073709551616 := by norm_num [U64_MOD]
    rw [hmod]
    omega

theorem agentState_ids : ∀ n,
    (agentState n).connections.map Prod.fst = (List.range n).map (fun k => k % U64_MOD) := by
  intro n
  induction n with
  | zero => rfl
  | succ k ih =>
    show ((agentState k).connections ++ [((agentState k).next_id, _)]).map Prod.fst = _
    rw [List.map_append, ih, agentState_next_id, List.range_succ, List.map_append]
    rfl

/-- Claim C9 (amended): agent connection ids come from a wrapping `u64`
counter — after `n` connections the assigned ids are `0 … n-1` reduced
mod `2^64`, pairwise distinct as long as at most `2^64` connections occur;
observer ids equal the current agent count plus `1_000_000`, so they stay
above every agent id only while fewer than `1_000_000` agent connections
have been made, and they are not unique among concurrent observers. -/
theorem connection_ids_spec : ∀ n,
    ((agentState n).connections.map Prod.fst = (List.range n).map (fun k => k % U64_MOD)) ∧
    (n ≤ U64_MOD → ((agentState n).connections.map Prod.fst).Nodup) ∧
    (n ≤ 1000000 → ∀ id ∈ (agentState n).connections.map Prod.fst,
        ∀ c, id < observerConnectionId c) := by
  intro n
  refine ⟨agentState_ids n, ?_, ?_⟩
  · intro hle
    rw [agentState_ids n]
    have hcong : (List.range n).map (fun k => k % U64_MOD) = (List.range n).map id := by
      apply List.map_congr_left
      intro a ha
      have : a < n := List.mem_range.mp ha
      exact Nat.mod_eq_of_lt (by omega)
    rw [hcong, List.map_id]
    exact List.nodup_range n
  · intro hle id hid c
    rw [agentState_ids n] at hid
    obtain ⟨k, hk, rfl⟩ := List.mem_map.mp hid
    have hkn : k < n := List.mem_range.mp hk
    have : k % U64_MOD ≤ k := Nat.mod_le k U64_MOD
    show k % U64_MOD < c + 1000000
    omega

/-- Counterexample to claim C9 as stated: two observer connections arriving
while the agent registry is empty are both assigned connection id
`1_000_000`, and registering the second in the observers map overwrites the
first — the id space is not unique among concurrently connected
observers. -/
theorem observer_id_collision_cex :
    observerConnectionId (subscribersCount emptySubscribers) = 1000000 ∧
    observersAdd (observersAdd [] (observerConnectionId (subscribersCount emptySubscribers)))
        (observerConnectionId (subscribersCount emptySubscribers))
      = [(1000000, ⟨[], none⟩)] ∧
    (observersAdd (observersAdd [] (observerConnectionId (subscribersCount emptySubscribers)))
        (observerConnectionId (subscribersCount emptySubscribers))).length = 1 := by
  refine ⟨rfl, rfl, rfl⟩

/-- Witness for C9's hypothesised conjuncts at `n = 2`: both agent ids are
assigned, distinct, and below every observer id. -/
theorem connection_ids_spec_witness :
    ((agentState 2).connections.map Prod.fst).Nodup ∧
    ∀ id ∈ (agentState 2).connections.map Prod.fst, ∀ c, id < observerConnectionId c :=
  ⟨(connection_ids_spec 2).2.1 (by norm_num [U64_MOD]),
   (connection_ids_spec 2).2.2 (by norm_num)⟩

/-! ### Health probe (claim C6) -/

theorem assocGet_find {α : Type} :
    ∀ (l : List (String × α)) (k : String) (v : α), assocGet l k = some v →
      ∃ q, l.find? (fun p => p.1 = k) = some q ∧ q.2 = v := by
  intro l
  induction l with
  | nil => intro k v h; cases h
  | cons p rest ih =>
    intro k v h
    by_cases hk : p.1 = k
    · refine ⟨p, List.find?_cons_of_pos _ (by simp [hk]), ?_⟩
      have h2 : (if p.1 = k then some p.2 else assocGet rest k) = some v := h
      rw [if_pos hk] at h2
      injection h2
    · have h2 : (if p.1 = k then some p.2 else assocGet rest k) = some v := h
      rw [if_neg hk] at h2
      obtain ⟨q, hq1, hq2⟩ := ih k v h2
      exact ⟨q, by rw [List.find?_cons_of_neg _ (by simp [hk])]; exact hq1, hq2⟩

theorem assocGet_map_entry (f : String × EndpointEntry → EndpointEntry) :
    ∀ (l : List (String × EndpointEntry)) (k : String),
    assocGet (l.map (fun p => (p.1, f p))) k
      = (match assocGet l k with
         | some _ => (l.find? (fun p => p.1 = k)).map f
         | none => none) := by
  intro l
  induction l with
  | nil => intro k; rfl
  | cons p rest ih =>
    intro k
    show (if p.1 = k then some (f p) else assocGet (rest.map _) k) = _
    by_cases hk : p.1 = k
    · rw [if_pos hk]
      show _ = (match (if p.1 = k then some p.2 else assocGet rest k) with
                | some _ => ((p :: rest).find? (fun q => q.1 = k)).map f
                | none => none)
      rw [if_pos hk, List.find?_cons_of_pos _ (by simp [hk])]
      rfl
    · rw [if_neg hk]
      show _ = (match (if p.1 = k then some p.2 else assocGet rest k) with
                | some _ => ((p :: rest).find? (fun q => q.1 = k)).map f
                | none => none)
      rw [if_neg hk, List.find?_cons_of_neg _ (by simp [hk])]
      exact ih k

/-- Claim C6 (amended): the HTTP health probe visits every configured
endpoint (the loop body is applied to each entry, in order, regardless of
other endpoints' outcomes): a 2xx response sets `healthy := true`, any
other outcome (non-2xx status or network error) sets `healthy := false`,
and only the `healthy` flag changes — `consecutive_failures` is left
untouched on every outcome; when metrics are enabled each outcome emits a
request-end success or the typed error `health_http_status` vs
`health_http_error`. -/
theorem health_check_spec :
    ∀ (reg : EndpointRegistry) (probe : String → ProbeResult),
    ((health_check_all_http reg probe).1.endpoints
        = reg.endpoints.map (fun p => (p.1, { p.2 with healthy := probeSucceeded (probe p.1) }))) ∧
    (∀ n, ((assocGet (health_check_all_http reg probe).1.endpoints n).map
            (fun e => e.endpoint.consecutive_failures))
        = ((assocGet reg.endpoints n).map (fun e => e.endpoint.consecutive_failures))) ∧
    ((health_check_all_http reg probe).2
        = (reg.endpoints.map (fun p => healthEventFor reg.metricsEnabled p.1 (probe p.1))).flatten) := by
  intro reg probe
  have hbody : ∀ p : String × EndpointEntry,
      (healthProbeEntry reg.metricsEnabled p.1 p.2 (probe p.1)).1
        = { p.2 with healthy := probeSucceeded (probe p.1) } := by
    intro p
    cases hpr : probe p.1 with
    | ok s =>
      by_cases hs : isSuccessStatus s
      · simp [healthProbeEntry, probeSucceeded, hs]
      · simp [healthProbeEntry, probeSucceeded, hs]
    | err => simp [healthProbeEntry, probeSucceeded]
  have hev : ∀ p : String × EndpointEntry,
      (healthProbeEntry reg.metricsEnabled p.1 p.2 (probe p.1)).2
        = healthEventFor reg.metricsEnabled p.1 (probe p.1) := by
    intro p
    cases hpr : probe p.1 with
    | ok s =>
      by_cases hs : isSuccessStatus s
      · by_cases hm : reg.metricsEnabled <;> simp [healthProbeEntry, healthEventFor, hs, hm]
      · by_cases hm : reg.metricsEnabled <;> simp [healthProbeEntry, healthEventFor, hs, hm]
    | err =>
      by_cases hm : reg.metricsEnabled <;> simp [healthProbeEntry, healthEventFor, hm]
  have hend : (health_check_all_http reg probe).1.endpoints
      = reg.endpoints.map (fun p => (p.1, { p.2 with healthy := probeSucceeded (probe p.1) })) := by
    show reg.endpoints.map _ = _
    apply List.map_congr_left
    intro p _
    rw [hbody p]
  refine ⟨hend, ?_, ?_⟩
  · intro n
    rw [hend]
    rw [assocGet_map_entry (fun p => { p.2 with healthy := probeSucceeded (probe p.1) })
          reg.endpoints n]
    cases hg : assocGet reg.endpoints n with
    | none => rfl
    | some e =>
      obtain ⟨q, hq1, hq2⟩ := assocGet_find reg.endpoints n e hg
      rw [hq1]
      simp [hq2]
  · show (reg.endpoints.map _).flatten = _
    congr 1
    apply List.map_congr_left
    intro p _
    rw [hev p]

/-- Counterexample to claim C6 as stated: probing the freshly configured
endpoint `a` (zero `consecutive_failures`) with a network error leaves
`consecutive_failures` at `0` instead of incrementing it to `1`; the
`healthy` flag is cleared as claimed. -/
theorem health_consecutive_failures_cex :
    ((assocGet (health_check_all_http regFresh (fun _ => ProbeResult.err)).1.endpoints "a").map
        (fun e => e.healthy) = some false) ∧
    ((assocGet (health_check_all_http regFresh (fun _ => ProbeResult.err)).1.endpoints "a").map
        (fun e => e.endpoint.consecutive_failures) = some 0) ∧
    some (0 : Nat) ≠ some 1 := by
  refine ⟨rfl, rfl, by decide⟩

/-- Witness instantiating `health_check_spec` on `regFresh` with an
error-probing pass (conjuncts are hypothesis-free; this records a concrete
evaluation of all three). -/
theorem health_check_spec_witness :
    ((health_check_all_http regFresh (fun _ => ProbeResult.err)).1.endpoints
        = regFresh.endpoints.map
            (fun p => (p.1, { p.2 with
              healthy := probeSucceeded ((fun _ => ProbeResult.err) p.1) }))) ∧
    ((health_check_all_http regFresh (fun _ => ProbeResult.err)).2
        = (regFresh.endpoints.map
            (fun p => healthEventFor regFresh.metricsEnabled p.1
              ((fun _ => ProbeResult.err) p.1))).flatten) :=
  ⟨(health_check_spec regFresh (fun _ => ProbeResult.err)).1,
   (health_check_spec regFresh (fun _ => ProbeResult.err)).2.2⟩

/-! ### Upstream request body (claim C5) -/

theorem jLookup_filter_keys (k : String) (hk : k ∉ chatRequestKeys) :
    ∀ fs : List (String × JsonValue),
    jLookup (fs.filter (fun kv => !(chatRequestKeys.contains kv.1))) k = jLookup fs k := by
  intro fs
  induction fs with
  | nil => rfl
  | cons kv rest ih =>
    rw [List.filter_cons]
    by_cases hek : kv.1 = k
    · have hkeep : (!(chatRequestKeys.contains kv.1)) = true := by
        rw [hek]
        simp [hk]
      rw [if_pos hkeep]
      show (if kv.1 = k then some kv.2 else _) = (if kv.1 = k then some kv.2 else _)
      rw [if_pos hek, if_pos hek]
    · by_cases hkeep : (!(chatRequestKeys.contains kv.1)) = true
      · rw [if_pos hkeep]
        show (if kv.1 = k then some kv.2 else _) = (if kv.1 = k then some kv.2 else _)
        rw [if_neg hek, if_neg hek]
        exact ih
      · rw [if_neg hkeep]
        rw [ih]
        show _ = (if kv.1 = k then some kv.2 else jLookup rest k)
        rw [if_neg hek]

/-- Claim C5 (amended): the proxy POSTs the serde re-serialization of the
parsed request, not the client's bytes: `model` and every unknown
(flattened) field are preserved with their original values, but the
declared fields are always materialized — in particular the upstream body
always carries a `stream` field (`null` when the client omitted it) and a
`messages` array — so the upstream body is not in general equal to the body
the client sent. -/
theorem upstream_body_spec :
    ∀ (fs : List (String × JsonValue)) (req : ChatCompletionRequest),
    parseChatCompletionRequest (JsonValue.obj fs) = some req →
    (jLookup (serializedChatFields req) "model" = some (JsonValue.str req.model) ∧
     jLookup fs "model" = some (JsonValue.str req.model)) ∧
    (∀ k, k ∉ chatRequestKeys →
        jLookup (serializedChatFields req) k = jLookup fs k) ∧
    (jLookup (serializedChatFields req) "stream"
      = some (match req.stream with
              | none => JsonValue.null
              | some b => JsonValue.bool b)) := by
  intro fs req h
  simp only [parseChatCompletionRequest] at h
  cases hm : jLookup fs "model" with
  | none => rw [hm] at h; cases h
  | some v =>
    cases v with
    | str m =>
      rw [hm] at h
      cases hmsg : parseMessages (jLookup fs "messages") with
      | none => rw [hmsg] at h; cases h
      | some msgs =>
        cases hst : parseStream (jLookup fs "stream") with
        | none => rw [hmsg, hst] at h; cases h
        | some st =>
          rw [hmsg, hst] at h
          have hreq : req = ⟨m, msgs, st,
              fs.filter (fun kv => !(chatRequestKeys.contains kv.1))⟩ := by
            injection h with h2
            exact h2.symm
          subst hreq
          refine ⟨⟨rfl, rfl⟩, ?_, rfl⟩
          intro k hk
          have hk1 : ¬("model" = k) := fun he => hk (he ▸ by simp [chatRequestKeys])
          have hk2 : ¬("messages" = k) := fun he => hk (he ▸ by simp [chatRequestKeys])
          have hk3 : ¬("stream" = k) := fun he => hk (he ▸ by simp [chatRequestKeys])
          show (if "model" = k then _ else
                if "messages" = k then _ else
                if "stream" = k then _ else
                jLookup (fs.filter (fun kv => !(chatRequestKeys.contains kv.1))) k)
              = jLookup fs k
          rw [if_neg hk1, if_neg hk2, if_neg hk3]
          exact jLookup_filter_keys k hk fs
    | null => rw [hm] at h; cases h
    | bool b => rw [hm] at h; cases h
    | num lit => rw [hm] at h; cases h
    | arr items => rw [hm] at h; cases h
    | obj fields => rw [hm] at h; cases h

/-- Witness for C5's amended theorem: the body with an unknown
`temperature` field parses, and the upstream body carries that field with
its original value. -/
theorem upstream_body_spec_witness :
    parseChatCompletionRequest (JsonValue.obj fieldsWithExtra) = some reqWithExtra ∧
    jLookup (serializedChatFields reqWithExtra) "temperature"
      = jLookup fieldsWithExtra "temperature" :=
  ⟨rfl, ((upstream_body_spec fieldsWithExtra reqWithExtra rfl).2.1 "temperature"
      (by simp [chatRequestKeys]))⟩

/-- Counterexample to claim C5 as stated: the minimal body with only a
`model` field parses, but the upstream body is not equal to it — the
original has no `stream` key while the re-serialized body carries
`stream: null` (and a materialized empty `messages` array). -/
theorem upstream_body_changed_cex :
    parseChatCompletionRequest (JsonValue.obj fieldsModelOnly) = some reqModelOnly ∧
    jLookup fieldsModelOnly "stream" = none ∧
    jLookup (serializedChatFields reqModelOnly) "stream" = some JsonValue.null ∧
    upstreamBody reqModelOnly ≠ JsonValue.obj fieldsModelOnly := by
  refine ⟨rfl, rfl, rfl, ?_⟩
  intro h
  have hlen := congrArg
    (fun j => match j with | JsonValue.obj l => l.length | _ => 0) h
  exact absurd hlen (by decide)

/-! ### Model index rebuild (claim C3) -/

theorem indexInsert_lookup :
    ∀ (idx : List (String × List String)) (id name k : String),
    assocGet (indexInsert idx id name) k
      = if k = id then some ((assocGet idx id).getD [] ++ [name]) else assocGet idx k := by
  intro idx
  induction idx with
  | nil =>
    intro id name k
    show (if id = k then some [name] else none)
        = if k = id then some ((none : Option (List String)).getD [] ++ [name]) else none
    by_cases hk : k = id
    · rw [if_pos (hk.symm), if_pos hk]; rfl
    · rw [if_neg (fun he => hk he.symm), if_neg hk]
  | cons p rest ih =>
    intro id name k
    cases p with
    | mk k' v =>
      show assocGet (if k' = id then (k', v ++ [name]) :: rest
                     else (k', v) :: indexInsert rest id name) k = _
      by_cases hki : k' = id
      · rw [if_pos hki]
        show (if k' = k then some (v ++ [name]) else assocGet rest k) = _
        by_cases hk : k = id
        · have hk'k : k' = k := by rw [hki, hk]
          rw [if_pos hk'k, if_pos hk]
          show _ = some ((assocGet ((k', v) :: rest) id).getD [] ++ [name])
          have : assocGet ((k', v) :: rest) id = some v := by
            show (if k' = id then some v else assocGet rest id) = some v
            rw [if_pos hki]
          rw [this]
          rfl
        · have hk'k : ¬(k' = k) := fun he => hk (by rw [← he, hki])
          rw [if_neg hk'k, if_neg hk]
          show _ = assocGet ((k', v) :: rest) k
          have : assocGet ((k', v) :: rest) k = assocGet rest k := by
            show (if k' = k then some v else assocGet rest k) = assocGet rest k
            rw [if_neg hk'k]
          rw [this]
      · rw [if_neg hki]
        show (if k' = k then some v else assocGet (indexInsert rest id name) k) = _
        by_cases hk'k : k' = k
        · have hk : ¬(k = id) := fun he => hki (by rw [hk'k, he])
          rw [if_pos hk'k, if_neg hk]
          show _ = (if k' = k then some v else assocGet rest k)
          rw [if_pos hk'k]
        · rw [if_neg hk'k, ih id name k]
          by_cases hk : k = id
          · rw [if_pos hk, if_pos hk]
            have : assocGet ((k', v) :: rest) id = assocGet rest id := by
              show (if k' = id then some v else assocGet rest id) = assocGet rest id
              rw [if_neg hki]
            rw [this]
          · rw [if_neg hk, if_neg hk]
            show _ = (if k' = k then some v else assocGet rest k)
            rw [if_neg hk'k]

theorem indexInsert_noEmpty
    {idx : List (String × List String)} (hid : ∀ p ∈ idx, p.2 ≠ [])
    (id name : String) : ∀ p ∈ indexInsert idx id name, p.2 ≠ [] := by
  induction idx with
  | nil =>
    intro p hp
    rw [List.mem_singleton.mp hp]
    simp
  | cons q rest ih =>
    cases q with
    | mk k' v =>
      intro p hp
      show p.2 ≠ []
      by_cases hki : k' = id
      · have : indexInsert ((k', v) :: rest) id name = (k', v ++ [name]) :: rest := by
          show (if k' = id then (k', v ++ [name]) :: rest else _) = _
          rw [if_pos hki]
        rw [this] at hp
        cases List.mem_cons.mp hp with
        | inl he => rw [he]; simp
        | inr he => exact hid p (List.mem_cons_of_mem _ he)
      · have : indexInsert ((k', v) :: rest) id name = (k', v) :: indexInsert rest id name := by
          show (if k' = id then _ else (k', v) :: indexInsert rest id name) = _
          rw [if_neg hki]
        rw [this] at hp
        cases List.mem_cons.mp hp with
        | inl he => rw [he]; exact hid (k', v) (List.mem_cons_self _ _)
        | inr he =>
          exact ih (fun q hq => hid q (List.mem_cons_of_mem _ hq)) p he

theorem innerFold_lookup (name k : String) :
    ∀ (ms : List ModelDescriptor) (idx : List (String × List String)),
    (assocGet (ms.foldl (fun idx2 d => indexInsert idx2 d.id name) idx) k).getD []
      = (assocGet idx k).getD [] ++ (ms.filter (fun d => d.id = k)).map (fun _ => name) := by
  intro ms
  induction ms with
  | nil => intro idx; simp
  | cons d ds ih =>
    intro idx
    show (assocGet (ds.foldl _ (indexInsert idx d.id name)) k).getD [] = _
    rw [ih (indexInsert idx d.id name)]
    rw [List.filter_cons]
    by_cases hdk : d.id = k
    · have hins : (assocGet (indexInsert idx d.id name) k).getD []
          = (assocGet idx k).getD [] ++ [name] := by
        rw [indexInsert_lookup idx d.id name k, if_pos hdk.symm, hdk]
        rfl
      rw [hins, if_pos (by simp [hdk])]
      simp [List.append_assoc]
    · have hins : (assocGet (indexInsert idx d.id name) k).getD []
          = (assocGet idx k).getD [] := by
        rw [indexInsert_lookup idx d.id name k, if_neg (fun he => hdk he.symm)]
      rw [hins, if_neg (by simp [hdk])]

theorem innerFold_noEmpty (name : String) :
    ∀ (ms : List ModelDescriptor) (idx : List (String × List String)),
    (∀ p ∈ idx, p.2 ≠ []) →
    ∀ p ∈ ms.foldl (fun idx2 d => indexInsert idx2 d.id name) idx, p.2 ≠ [] := by
  intro ms
  induction ms with
  | nil => intro idx h; exact h
  | cons d ds ih =>
    intro idx h
    exact ih (indexInsert idx d.id name) (indexInsert_noEmpty h d.id name)

theorem rebuildAux_lookup (k : String) :
    ∀ (endpoints : List (String × EndpointEntry)) (idx : List (String × List String)),
    (assocGet (endpoints.foldl
        (fun idx p => p.2.discovered_models.foldl
          (fun idx2 m => indexInsert idx2 m.id p.1) idx) idx) k).getD []
      = (assocGet idx k).getD [] ++ modelOcc endpoints k := by
  intro endpoints
  induction endpoints with
  | nil => intro idx; simp [modelOcc]
  | cons p eps ih =>
    intro idx
    show (assocGet (eps.foldl _ (p.2.discovered_models.foldl _ idx)) k).getD [] = _
    rw [ih, innerFold_lookup p.1 k p.2.discovered_models idx]
    have : modelOcc (p :: eps) k
        = (p.2.discovered_models.filter (fun d => d.id = k)).map (fun _ => p.1)
          ++ modelOcc eps k := by
      simp [modelOcc]
    rw [this, List.append_assoc]

theorem rebuildAux_noEmpty :
    ∀ (endpoints : List (String × EndpointEntry)) (idx : List (String × List String)),
    (∀ p ∈ idx, p.2 ≠ []) →
    ∀ p ∈ endpoints.foldl
        (fun idx p => p.2.discovered_models.foldl
          (fun idx2 m => indexInsert idx2 m.id p.1) idx) idx, p.2 ≠ [] := by
  intro endpoints
  induction endpoints with
  | nil => intro idx h; exact h
  | cons p eps ih =>
    intro idx h
    exact ih _ (innerFold_noEmpty p.1 p.2.discovered_models idx h)

theorem rebuild_lookup_eq (endpoints : List (String × EndpointEntry)) (k : String) :
    assocGet (rebuild_model_index endpoints) k
      = if modelOcc endpoints k = [] then none else some (modelOcc endpoints k) := by
  have hD : (assocGet (rebuild_model_index endpoints) k).getD [] = modelOcc endpoints k := by
    show (assocGet (endpoints.foldl _ []) k).getD [] = _
    rw [rebuildAux_lookup k endpoints []]
    rfl
  have hNE : ∀ p ∈ rebuild_model_index endpoints, p.2 ≠ [] :=
    rebuildAux_noEmpty endpoints [] (by intro p hp; cases hp)
  cases hg : assocGet (rebuild_model_index endpoints) k with
  | none =>
    rw [hg] at hD
    rw [if_pos]
    rw [← hD]
    rfl
  | some v =>
    rw [hg] at hD
    have hv : v = modelOcc endpoints k := hD
    obtain ⟨q, hq1, hq2⟩ := assocGet_find (rebuild_model_index endpoints) k v hg
    have hne : v ≠ [] := hq2 ▸ hNE q (List.mem_of_find?_eq_some hq1)
    rw [if_neg (by rw [← hv]; exact hne), ← hv]

theorem filter_single_of_nodup (name m : String) :
    ∀ (ms : List ModelDescriptor), (ms.map (fun d => d.id)).Nodup →
    ((ms.filter (fun d => d.id = m)).map (fun _ => name))
      = (if ms.any (fun d => d.id = m) then [name] else []) := by
  intro ms
  induction ms with
  | nil => intro _; rfl
  | cons d ds ih =>
    intro hnd
    have hnd2 : (ds.map (fun d => d.id)).Nodup := (List.nodup_cons.mp hnd).2
    have hnm : d.id ∉ ds.map (fun d => d.id) := (List.nodup_cons.mp hnd).1
    rw [List.filter_cons]
    by_cases hdm : d.id = m
    · rw [if_pos (by simp [hdm])]
      have hrest : ds.filter (fun d => d.id = m) = [] := by
        rw [List.filter_eq_nil_iff]
        intro a ha hma
        apply hnm
        rw [hdm]
        have : a.id = m := by simpa using hma
        rw [← this]
        exact List.mem_map_of_mem _ ha
      rw [if_pos (by simp [List.any_cons, hdm])]
      simp [hrest]
    · rw [if_neg (by simp [hdm]), ih hnd2]
      have : ((d :: ds).any (fun d => d.id = m)) = (ds.any (fun d => d.id = m)) := by
        simp [List.any_cons, hdm]
      rw [this]

theorem modelOcc_eq_advertisers (m : String) :
    ∀ (endpoints : List (String × EndpointEntry)),
    (∀ p ∈ endpoints, (p.2.discovered_models.map (fun d => d.id)).Nodup) →
    modelOcc endpoints m = advertisers endpoints m := by
  intro endpoints
  induction endpoints with
  | nil => intro _; rfl
  | cons p eps ih =>
    intro hnd
    have h1 : modelOcc (p :: eps) m
        = (p.2.discovered_models.filter (fun d => d.id = m)).map (fun _ => p.1)
          ++ modelOcc eps m := by
      simp [modelOcc]
    have h2 : advertisers (p :: eps) m
        = (if p.2.discovered_models.any (fun d => d.id = m) then [p.1] else [])
          ++ advertisers eps m := by
      unfold advertisers
      rw [List.filter_cons]
      by_cases hadv : p.2.discovered_models.any (fun d => d.id = m)
      · rw [if_pos (by simp [hadv]), if_pos hadv]
        rfl
      · rw [if_neg (by simpa using hadv), if_neg hadv]
        rfl
    rw [h1, h2, filter_single_of_nodup p.1 m p.2.discovered_models
          (hnd p (List.mem_cons_self _ _)),
        ih (fun q hq => hnd q (List.mem_cons_of_mem _ hq))]

/-- Claim C3 (amended): after a rebuild, `ModelIndex[m]` contains exactly
the names of the endpoints whose current `discovered_models` contain a
descriptor with id `m` (assuming per-endpoint model ids are not
duplicated), in the endpoints map's iteration order — which is the
`HashMap`'s unspecified order, not configuration order. -/
theorem model_index_rebuild_spec :
    ∀ (endpoints : List (String × EndpointEntry)) (m : String),
    (∀ p ∈ endpoints, (p.2.discovered_models.map (fun d => d.id)).Nodup) →
    (advertisers endpoints m = [] → assocGet (rebuild_model_index endpoints) m = none) ∧
    (advertisers endpoints m ≠ [] →
        assocGet (rebuild_model_index endpoints) m = some (advertisers endpoints m)) := by
  intro endpoints m hnd
  have hocc := modelOcc_eq_advertisers m endpoints hnd
  constructor
  · intro hadv
    rw [rebuild_lookup_eq, if_pos (by rw [hocc, hadv])]
  · intro hadv
    rw [rebuild_lookup_eq, if_neg (by rw [hocc]; exact hadv), hocc]

/-- Witness for C3's amended theorem on the two-endpoint registry contents
iterated as `[b, a]`: both endpoints advertise `m`, so the bucket is
exactly `["b", "a"]` in iteration order. -/
theorem model_index_rebuild_spec_witness :
    assocGet (rebuild_model_index endpointsPermOrder) "m" = some (advertisers endpointsPermOrder "m") :=
  (model_index_rebuild_spec endpointsPermOrder "m"
      (by intro p hp; fin_cases hp <;> decide)).2 (by decide)

/-- Counterexample to claim C3 as stated: `endpointsPermOrder` is a
permutation (hence an equally legal `HashMap` iteration order) of the
`[cfgA, cfgB]` registry contents, both endpoints advertise `m`, and
rebuilding yields the bucket `["b", "a"]` — not the configuration order
`["a", "b"]`. -/
theorem model_index_config_order_cex :
    List.Perm endpointsPermOrder endpointsConfigOrder ∧
    assocGet (rebuild_model_index endpointsPermOrder) "m" = some ["b", "a"] ∧
    (["b", "a"] : List String) ≠ ["a", "b"] := by
  refine ⟨?_, rfl, by decide⟩
  show List.Perm [("b", entryBDisc), ("a", entryADisc)] [("a", entryADisc), ("b", entryBDisc)]
  exact List.Perm.swap ("a", entryADisc) ("b", entryBDisc) []

/-! ### Stale models of unhealthy endpoints (claim C10) -/

theorem modelOcc_mem {endpoints : List (String × EndpointEntry)} {m n : String}
    (h : n ∈ modelOcc endpoints m) :
    ∃ e, (n, e) ∈ endpoints ∧ ∃ d ∈ e.discovered_models, d.id = m := by
  unfold modelOcc at h
  obtain ⟨l, hl, hnl⟩ := List.mem_flatten.mp h
  obtain ⟨p, hp, rfl⟩ := List.mem_map.mp hl
  obtain ⟨d, hd, he⟩ := List.mem_map.mp hnl
  have hdm := List.mem_filter.mp hd
  refine ⟨p.2, ?_, d, hdm.1, by simpa using hdm.2⟩
  rw [← he]
  exact hp

theorem modelOcc_of_adv {endpoints : List (String × EndpointEntry)} {m : String}
    {p : String × EndpointEntry} (hp : p ∈ endpoints)
    {d : ModelDescriptor} (hd : d ∈ p.2.discovered_models) (hdm : d.id = m) :
    p.1 ∈ modelOcc endpoints m := by
  unfold modelOcc
  rw [List.mem_flatten]
  refine ⟨(p.2.discovered_models.filter (fun d => d.id = m)).map (fun _ => p.1),
          List.mem_map_of_mem _ hp, ?_⟩
  rw [List.mem_map]
  exact ⟨d, List.mem_filter.mpr ⟨hd, by simpa using hdm⟩, rfl⟩

theorem assocGet_of_mem_nodup {l : List (String × EndpointEntry)}
    (hnd : (l.map Prod.fst).Nodup) {n : String} {e : EndpointEntry}
    (hmem : (n, e) ∈ l) : assocGet l n = some e := by
  induction l with
  | nil => cases hmem
  | cons q rest ih =>
    cases List.mem_cons.mp hmem with
    | inl he =>
      show (if q.1 = n then some q.2 else assocGet rest n) = some e
      rw [← he]
      rw [if_pos rfl]
    | inr he =>
      show (if q.1 = n then some q.2 else assocGet rest n) = some e
      have hq : q.1 ≠ n := by
        intro hq
        have : n ∈ rest.map Prod.fst := by
          rw [← show (n, e).1 = n from rfl]
          exact List.mem_map_of_mem Prod.fst he
        rw [List.map_cons, List.nodup_cons] at hnd
        exact hnd.1 (hq ▸ this)
      rw [if_neg hq]
      exact ih (by rw [List.map_cons, List.nodup_cons] at hnd; exact hnd.2) he

theorem findHealthy_none {endpoints : List (String × EndpointEntry)}
    {names : List String} (h : ∀ n ∈ names, healthyAt endpoints n = false) :
    findHealthy endpoints names = none := by
  rw [findHealthy_eq]
  rw [List.find?_eq_none.mpr (fun n hn => by rw [h n hn]; simp)]
  rfl

theorem capsScan_acc_mono (m : String) :
    ∀ (ms : List ModelDescriptor) (seen : List String) (acc : List ModelDescriptor),
    m ∈ acc.map (fun d => d.id) →
    m ∈ ((capsScan ms seen acc).2).map (fun d => d.id) := by
  intro ms
  induction ms with
  | nil => intro seen acc h; exact h
  | cons d ds ih =>
    intro seen acc h
    show m ∈ ((if seen.contains d.id then capsScan ds seen acc
               else capsScan ds (d.id :: seen) (acc ++ [d])).2).map (fun d => d.id)
    by_cases hs : seen.contains d.id
    · rw [if_pos hs]; exact ih seen acc h
    · rw [if_neg hs]
      exact ih _ _ (by rw [List.map_append]; exact List.mem_append_left _ h)

theorem capsScan_inv (m : String) :
    ∀ (ms : List ModelDescriptor) (seen : List String) (acc : List ModelDescriptor),
    (∀ x ∈ seen, x ∈ acc.map (fun d => d.id)) →
    (∀ x ∈ (capsScan ms seen acc).1, x ∈ ((capsScan ms seen acc).2).map (fun d => d.id)) ∧
    (m ∈ ms.map (fun d => d.id) → m ∈ seen ∨ m ∈ ((capsScan ms seen acc).2).map (fun d => d.id)) := by
  intro ms
  induction ms with
  | nil =>
    intro seen acc hinv
    exact ⟨hinv, fun h => absurd h (by simp)⟩
  | cons d ds ih =>
    intro seen acc hinv
    simp only [capsScan]
    by_cases hs : seen.contains d.id
    · rw [if_pos hs]
      have hmem : d.id ∈ seen := by simpa using hs
      obtain ⟨h1, h2⟩ := ih seen acc hinv
      refine ⟨h1, ?_⟩
      intro hm
      rw [List.map_cons] at hm
      cases List.mem_cons.mp hm with
      | inl he => exact Or.inl (he ▸ hmem)
      | inr he => exact h2 he
    · rw [if_neg hs]
      have hinv2 : ∀ x ∈ d.id :: seen, x ∈ (acc ++ [d]).map (fun d => d.id) := by
        intro x hx
        rw [List.map_append]
        cases List.mem_cons.mp hx with
        | inl he => exact List.mem_append_right _ (by rw [he]; simp)
        | inr he => exact List.mem_append_left _ (hinv x he)
      obtain ⟨h1, h2⟩ := ih (d.id :: seen) (acc ++ [d]) hinv2
      refine ⟨h1, ?_⟩
      intro hm
      rw [List.map_cons] at hm
      cases List.mem_cons.mp hm with
      | inl he =>
        right
        apply capsScan_acc_mono
        rw [List.map_append, he]
        exact List.mem_append_right _ (by simp)
      | inr he =>
        cases h2 he with
        | inl hseen =>
          cases List.mem_cons.mp hseen with
          | inl hd =>
            right
            apply capsScan_acc_mono
            rw [List.map_append, hd]
            exact List.mem_append_right _ (by simp)
          | inr hrest => exact Or.inl hrest
        | inr hacc => exact Or.inr hacc

theorem capsFold_acc_mono (m : String) :
    ∀ (endpoints : List (String × EndpointEntry))
      (st : List String × List ModelDescriptor),
    m ∈ st.2.map (fun d => d.id) →
    m ∈ ((endpoints.foldl (fun st p => capsScan p.2.discovered_models st.1 st.2) st).2).map
          (fun d => d.id) := by
  intro endpoints
  induction endpoints with
  | nil => intro st h; exact h
  | cons p eps ih =>
    intro st h
    exact ih _ (capsScan_acc_mono m p.2.discovered_models st.1 st.2 h)

theorem capsFold_inv (m : String) :
    ∀ (endpoints : List (String × EndpointEntry))
      (st : List String × List ModelDescriptor),
    (∀ x ∈ st.1, x ∈ st.2.map (fun d => d.id)) →
    (∀ x ∈ (endpoints.foldl (fun st p => capsScan p.2.discovered_models st.1 st.2) st).1,
        x ∈ ((endpoints.foldl (fun st p => capsScan p.2.discovered_models st.1 st.2) st).2).map
              (fun d => d.id)) ∧
    ((∃ p ∈ endpoints, ∃ d ∈ p.2.discovered_models, d.id = m) →
        m ∈ ((endpoints.foldl (fun st p => capsScan p.2.discovered_models st.1 st.2) st).2).map
              (fun d => d.id)) := by
  intro endpoints
  induction endpoints with
  | nil =>
    intro st hinv
    exact ⟨hinv, fun h => by obtain ⟨p, hp, -⟩ := h; cases hp⟩
  | cons p eps ih =>
    intro st hinv
    obtain ⟨hscan1, hscan2⟩ := capsScan_inv m p.2.discovered_models st.1 st.2 hinv
    obtain ⟨hih1, hih2⟩ := ih (capsScan p.2.discovered_models st.1 st.2) hscan1
    refine ⟨hih1, ?_⟩
    rintro ⟨q, hq, d, hd, hdm⟩
    cases List.mem_cons.mp hq with
    | inl he =>
      have hm : m ∈ p.2.discovered_models.map (fun d => d.id) := by
        rw [he] at hd
        rw [← hdm]
        exact List.mem_map_of_mem _ hd
      cases hscan2 hm with
      | inl hseen =>
        exact capsFold_acc_mono m eps _
          (capsScan_acc_mono m p.2.discovered_models st.1 st.2 (hinv m hseen))
      | inr hacc =>
        exact capsFold_acc_mono m eps _ hacc
    | inr he =>
      exact hih2 ⟨q, he, d, hd, hdm⟩

theorem capsModels_of_adv {endpoints : List (String × EndpointEntry)} {m : String}
    (h : ∃ p ∈ endpoints, ∃ d ∈ p.2.discovered_models, d.id = m) :
    m ∈ (capsModels endpoints).map (fun d => d.id) := by
  unfold capsModels
  exact (capsFold_inv m endpoints ([], []) (by intro x hx; cases hx)).2 h

/-- Claim C10: a discovery pass skips unhealthy endpoints without clearing
their previously discovered models; the subsequent index rebuild and the
capability snapshot include those last-seen models regardless of health, so
a model advertised only by unhealthy endpoints still appears in the model
index and in the `GET /v1/models` union while `select_endpoint_for_model`
returns `None` for it. -/
theorem stale_models_spec :
    ∀ (reg : EndpointRegistry) (fetch : String → FetchResult) (m : String),
    (reg.endpoints.map Prod.fst).Nodup →
    (∀ p ∈ reg.endpoints, p.2.healthy = false →
        (p.1, p.2) ∈ (discover_models_all_http reg fetch).1.endpoints) ∧
    ((∃ p ∈ reg.endpoints, p.2.healthy = false ∧
          ∃ d ∈ p.2.discovered_models, d.id = m) →
      (assocGet (discover_models_all_http reg fetch).1.model_index m).isSome = true ∧
      m ∈ (to_node_capabilities (discover_models_all_http reg fetch).1).models.map
            (fun d => d.id)) ∧
    ((∀ p ∈ (discover_models_all_http reg fetch).1.endpoints,
          (∃ d ∈ p.2.discovered_models, d.id = m) → p.2.healthy = false) →
      select_endpoint_for_model (discover_models_all_http reg fetch).1 m = none) := by
  intro reg fetch m hnd
  have hend : (discover_models_all_http reg fetch).1.endpoints
      = reg.endpoints.map
          (fun p => (p.1, (discoverEntry reg.metricsEnabled p.1 p.2 (fetch p.1)).1)) := rfl
  have hind : (discover_models_all_http reg fetch).1.model_index
      = rebuild_model_index (discover_models_all_http reg fetch).1.endpoints := rfl
  have hskip : ∀ p ∈ reg.endpoints, p.2.healthy = false →
      (p.1, p.2) ∈ (discover_models_all_http reg fetch).1.endpoints := by
    intro p hp hh
    rw [hend]
    have : (discoverEntry reg.metricsEnabled p.1 p.2 (fetch p.1)).1 = p.2 := by
      unfold discoverEntry
      rw [if_pos (by rw [hh]; rfl)]
    rw [← this]
    exact List.mem_map_of_mem _ hp
  have hkeys : ((discover_models_all_http reg fetch).1.endpoints.map Prod.fst).Nodup := by
    rw [hend, List.map_map]
    exact hnd
  refine ⟨hskip, ?_, ?_⟩
  · rintro ⟨p, hp, hh, d, hd, hdm⟩
    have hmem : (p.1, p.2) ∈ (discover_models_all_http reg fetch).1.endpoints :=
      hskip p hp hh
    have hocc : p.1 ∈ modelOcc (discover_models_all_http reg fetch).1.endpoints m :=
      modelOcc_of_adv hmem hd hdm
    constructor
    · rw [hind, rebuild_lookup_eq]
      rw [if_neg (fun he => by rw [he] at hocc; cases hocc)]
      rfl
    · exact capsModels_of_adv ⟨(p.1, p.2), hmem, d, hd, hdm⟩
  · intro hall
    show (match assocGet (discover_models_all_http reg fetch).1.model_index m with
          | none => none
          | some names => findHealthy (discover_models_all_http reg fetch).1.endpoints names)
        = none
    rw [hind, rebuild_lookup_eq]
    by_cases hocc : modelOcc (discover_models_all_http reg fetch).1.endpoints m = []
    · rw [if_pos hocc]
    · rw [if_neg hocc]
      show findHealthy _ _ = none
      apply findHealthy_none
      intro n hn
      obtain ⟨e, hmem, d, hd, hdm⟩ := modelOcc_mem hn
      have hh : e.healthy = false := hall (n, e) hmem ⟨d, hd, hdm⟩
      unfold healthyAt
      rw [assocGet_of_mem_nodup hkeys hmem]
      exact hh

/-- Witness for claim C10 on `regStale`: its single endpoint `u` is
unhealthy yet advertises `m`; after a discovery pass whose fetches all fail,
`m` is still indexed and in the capability union while selection returns
`None`. -/
theorem stale_models_spec_witness :
    ((assocGet (discover_models_all_http regStale (fun _ => FetchResult.err)).1.model_index
        "m").isSome = true) ∧
    ("m" ∈ (to_node_capabilities
        (discover_models_all_http regStale (fun _ => FetchResult.err)).1).models.map
          (fun d => d.id)) ∧
    (select_endpoint_for_model (discover_models_all_http regStale (fun _ => FetchResult.err)).1
        "m" = none) := by
  have h := stale_models_spec regStale (fun _ => FetchResult.err) "m" (by decide)
  have hadv : ∃ p ∈ regStale.endpoints, p.2.healthy = false ∧
      ∃ d ∈ p.2.discovered_models, d.id = "m" :=
    ⟨("u", entryUStale), List.mem_singleton_self _, rfl, mdM, List.mem_singleton_self _, rfl⟩
  have hall : ∀ p ∈ (discover_models_all_http regStale (fun _ => FetchResult.err)).1.endpoints,
      (∃ d ∈ p.2.discovered_models, d.id = "m") → p.2.healthy = false := by
    intro p hp _
    have : p = ("u", entryUStale) := List.mem_singleton.mp hp
    rw [this]
    rfl
  exact ⟨(h.2.1 hadv).1, (h.2.1 hadv).2, h.2.2 hall⟩

/-- Witness instantiating `select_endpoint_spec` on the concrete registry
`regCap0`. -/
theorem select_endpoint_spec_witness :
    select_endpoint_for_model regCap0 "m"
      = (List.find? (healthyAt regCap0.endpoints) (bucketOf regCap0 "m")).bind
          (fun n => (assocGet regCap0.endpoints n).map (fun e => (n, e))) :=
  (select_endpoint_spec regCap0 "m").1

/-- Witness instantiating `chat_completions_registry_unchanged` on a
concrete successful request. -/
theorem chat_completions_registry_unchanged_witness :
    (post_chat_completions regFree chatReqM (UpstreamOutcome.resp 200 true)).registryAfter
      = regFree :=
  (chat_completions_registry_unchanged regFree chatReqM (UpstreamOutcome.resp 200 true)).1

/-- Witness instantiating `chat_completions_errors_spec` on a concrete
failed upstream send. -/
theorem chat_completions_errors_spec_witness :
    ((∃ n, (post_chat_completions regFree chatReqM UpstreamOutcome.sendErr).status = 502 ∧
        MetricEvent.errorKind (some n) "upstream_request_error"
          ∈ (post_chat_completions regFree chatReqM UpstreamOutcome.sendErr).events)
      ↔ ((select_endpoint_for_model regFree chatReqM.model).isSome ∧
          UpstreamOutcome.sendErr = UpstreamOutcome.sendErr)) :=
  (chat_completions_errors_spec regFree chatReqM UpstreamOutcome.sendErr).2.1
